import Mathlib

/-!
A verification development for the floorplanner core (`src/utils.ts` and
`src/types.ts` of the PaperSiliconFloorplanner repository).

The TypeScript number type is modelled by the real numbers `ℝ`:

* `Math.sqrt` is `Real.sqrt` (so `sqrt` of a negative argument is `0` where
  JavaScript produces `NaN`; every theorem below that touches such a case
  notes which side of the comparison it affects);
* division by zero yields `0` in Lean where JavaScript yields `±Infinity`
  or `NaN`; theorems that could be sensitive to this carry explicit
  nonzero-divisor hypotheses;
* the JavaScript falsy-default idiom `v || d` on numbers is `jsOr v d`
  (equal to `v` unless `v = 0`; `NaN` inputs are outside the model);
* `Number(x.toFixed(2))` is `toFixed2` (round half away from zero equals
  round half up for the nonnegative quantities it is applied to here).

Lists keep JavaScript array order; `Array.prototype.sort` with the
comparators `(a, b) => a.y - b.y || a.x - b.x` (and the x/y-swapped one) is
a stable sort by the corresponding lexicographic key, modelled by
`List.insertionSort` with the matching total preorder, which is stable.
-/

noncomputable section

/-- JavaScript `v || d` for numbers: `d` when `v` is falsy (zero), else `v`. -/
def jsOr (v d : ℝ) : ℝ := if v = 0 then d else v

@[simp] theorem jsOr_self_zero (v : ℝ) : jsOr v 0 = v := by
  unfold jsOr; split <;> simp_all

@[simp] theorem jsOr_of_ne (v d : ℝ) (h : v ≠ 0) : jsOr v d = v := if_neg h

@[simp] theorem jsOr_zero_left (d : ℝ) : jsOr 0 d = d := if_pos rfl

/-- `const GLOBAL_MARGIN = 24` (utils.ts). -/
def GLOBAL_MARGIN : ℝ := 24

/-- `const GLOBAL_HEADER = 36` (utils.ts). -/
def GLOBAL_HEADER : ℝ := 36

/-- `const INTER_MODULE_GAP = 16` (utils.ts). -/
def INTER_MODULE_GAP : ℝ := 16

/-- `TechNodeConfig` (types.ts). -/
structure TechNodeConfig where
  name : String
  dffArea : ℝ
  gateArea : ℝ
  sramAreaPerBit : ℝ
  utilization : ℝ

/-- The scalar fields of a `ModuleNode` (types.ts); the `children` list is
attached by the inductive `ModuleNode` below (a Lean structure cannot be
recursive).  The optional cosmetic `color` field is omitted: no function of
utils.ts reads it. -/
structure NodeData where
  id : String
  name : String
  registers : ℝ
  memoryBits : ℝ
  logicGates : ℝ
  x : ℝ
  y : ℝ
  internalX : ℝ
  internalY : ℝ
  aspectRatio : ℝ
  internalAspectRatio : ℝ
  isRatioLinked : Bool
deriving Inhabited

/-- `ModuleNode` (types.ts): scalar data plus the list of children. -/
inductive ModuleNode : Type where
  | mk (data : NodeData) (children : List ModuleNode)

/-- The scalar fields of a node. -/
def ModuleNode.data : ModuleNode → NodeData
  | .mk d _ => d

/-- The children list of a node. -/
def ModuleNode.children : ModuleNode → List ModuleNode
  | .mk _ cs => cs

@[simp] theorem ModuleNode.data_mk (d : NodeData) (cs : List ModuleNode) :
    (ModuleNode.mk d cs).data = d := rfl

@[simp] theorem ModuleNode.children_mk (d : NodeData) (cs : List ModuleNode) :
    (ModuleNode.mk d cs).children = cs := rfl

/-- Field accessor shorthand. -/
def ModuleNode.id (n : ModuleNode) : String := n.data.id

/-- Field accessor shorthand. -/
def ModuleNode.name (n : ModuleNode) : String := n.data.name

/-- Field accessor shorthand. -/
def ModuleNode.x (n : ModuleNode) : ℝ := n.data.x

/-- Field accessor shorthand. -/
def ModuleNode.y (n : ModuleNode) : ℝ := n.data.y

/-- Field accessor shorthand. -/
def ModuleNode.internalX (n : ModuleNode) : ℝ := n.data.internalX

/-- Field accessor shorthand. -/
def ModuleNode.internalY (n : ModuleNode) : ℝ := n.data.internalY

/-- Field accessor shorthand. -/
def ModuleNode.aspectRatio (n : ModuleNode) : ℝ := n.data.aspectRatio

/-- Field accessor shorthand. -/
def ModuleNode.internalAspectRatio (n : ModuleNode) : ℝ := n.data.internalAspectRatio

/-- Field accessor shorthand. -/
def ModuleNode.isRatioLinked (n : ModuleNode) : Bool := n.data.isRatioLinked

/-- `AreaBreakdown` (types.ts). -/
structure AreaBreakdown where
  id : String
  name : String
  localArea : ℝ
  childrenArea : ℝ
  totalArea : ℝ
  regArea : ℝ
  memArea : ℝ
  logicArea : ℝ
  utilizationOverhead : ℝ
  calculatedWidth : ℝ
  calculatedHeight : ℝ
  idealWidth : ℝ
  idealHeight : ℝ
  minFeasibleRatio : ℝ
  maxFeasibleRatio : ℝ

/-- The `{ w, h, stats }` record returned by `calculatePhysicalSize`. -/
structure SizeResult where
  w : ℝ
  h : ℝ
  stats : AreaBreakdown

/-- `OverlapMarker` (types.ts). -/
structure OverlapMarker where
  x : ℝ
  y : ℝ
  w : ℝ
  h : ℝ
  ids : String × String

/-- `calculatePhysicalSize` (utils.ts, lines 23-84), transcribed clause by
clause.  The single `forEach` loop of lines 50-53 grows the two
independent accumulators `maxContentX` and `maxContentY`; it is written
here as the two corresponding independent folds. -/
def calculatePhysicalSize (config : TechNodeConfig) : ModuleNode → SizeResult
  | .mk d cs =>
    let regArea := jsOr d.registers 0 * config.dffArea
    let memArea := jsOr d.memoryBits 0 * config.sramAreaPerBit
    let logicArea := jsOr d.logicGates 0 * config.gateArea
    let rawLocalArea := regArea + memArea + logicArea
    let localArea := rawLocalArea / config.utilization
    let childrenInfo := cs.attach.map (fun c => (c.1, calculatePhysicalSize config c.1))
    let childrenAreaSum := childrenInfo.foldl (fun acc ci => acc + ci.2.w * ci.2.h) 0
    let totalContentArea := localArea + childrenAreaSum
    let effAR := if d.isRatioLinked then d.aspectRatio else jsOr d.internalAspectRatio 1
    let ratio := jsOr d.aspectRatio 1
    let idealH := Real.sqrt (totalContentArea / ratio)
    let idealW := idealH * ratio
    let hL := Real.sqrt (localArea / effAR)
    let wL := hL * effAR
    let maxContentX := childrenInfo.foldl (fun m ci => max m (jsOr ci.1.x 0 + ci.2.w))
      (jsOr d.internalX 0 + wL)
    let maxContentY := childrenInfo.foldl (fun m ci => max m (jsOr ci.1.y 0 + ci.2.h))
      (jsOr d.internalY 0 + hL)
    let finalW := max idealW (maxContentX + GLOBAL_MARGIN * 2)
    let finalH := max idealH (maxContentY + GLOBAL_MARGIN * 2 + GLOBAL_HEADER)
    let W_min := maxContentX + GLOBAL_MARGIN * 2
    let H_min := maxContentY + GLOBAL_MARGIN * 2 + GLOBAL_HEADER
    let minFR := W_min * W_min / totalContentArea
    let maxFR := totalContentArea / (H_min * H_min)
    { w := finalW, h := finalH,
      stats :=
        { id := d.id, name := d.name,
          localArea := localArea, childrenArea := childrenAreaSum,
          totalArea := finalW * finalH,
          regArea := regArea, memArea := memArea, logicArea := logicArea,
          utilizationOverhead := finalW * finalH * config.utilization - rawLocalArea,
          calculatedWidth := finalW, calculatedHeight := finalH,
          idealWidth := idealW, idealHeight := idealH,
          minFeasibleRatio := min minFR maxFR,
          maxFeasibleRatio := max minFR maxFR } }
decreasing_by
  have := List.sizeOf_lt_of_mem c.2
  simp only [ModuleNode.mk.sizeOf_spec]
  omega

/-- `(node.registers || 0) * config.dffArea` of utils.ts line 24. -/
def regAreaOf (config : TechNodeConfig) (d : NodeData) : ℝ := jsOr d.registers 0 * config.dffArea

/-- `(node.memoryBits || 0) * config.sramAreaPerBit` of utils.ts line 25. -/
def memAreaOf (config : TechNodeConfig) (d : NodeData) : ℝ := jsOr d.memoryBits 0 * config.sramAreaPerBit

/-- `(node.logicGates || 0) * config.gateArea` of utils.ts line 26. -/
def logicAreaOf (config : TechNodeConfig) (d : NodeData) : ℝ := jsOr d.logicGates 0 * config.gateArea

/-- `rawLocalArea` of utils.ts line 27. -/
def rawLocalAreaOf (config : TechNodeConfig) (d : NodeData) : ℝ :=
  regAreaOf config d + memAreaOf config d + logicAreaOf config d

/-- `localArea = rawLocalArea / config.utilization` of utils.ts line 28. -/
def localAreaOf (config : TechNodeConfig) (d : NodeData) : ℝ :=
  rawLocalAreaOf config d / config.utilization

/-- `childrenAreaSum` of utils.ts line 35. -/
def childrenAreaSumOf (config : TechNodeConfig) (cs : List ModuleNode) : ℝ :=
  cs.foldl (fun acc c =>
    acc + (calculatePhysicalSize config c).w * (calculatePhysicalSize config c).h) 0

/-- `totalContentArea` of utils.ts line 36. -/
def totalContentAreaOf (config : TechNodeConfig) (d : NodeData) (cs : List ModuleNode) : ℝ :=
  localAreaOf config d + childrenAreaSumOf config cs

/-- The repeated expression
`node.isRatioLinked ? node.aspectRatio : (node.internalAspectRatio || 1.0)`
(utils.ts lines 38, 93, 120, 191) on the scalar data. -/
def effARData (d : NodeData) : ℝ :=
  if d.isRatioLinked then d.aspectRatio else jsOr d.internalAspectRatio 1

/-- `effectiveInternalAR` on a whole node. -/
def effectiveInternalAR (n : ModuleNode) : ℝ := effARData n.data

/-- `ratio = node.aspectRatio || 1.0` of utils.ts line 39. -/
def ratioOf (d : NodeData) : ℝ := jsOr d.aspectRatio 1

/-- `idealH` of utils.ts line 41. -/
def idealHOf (config : TechNodeConfig) (d : NodeData) (cs : List ModuleNode) : ℝ :=
  Real.sqrt (totalContentAreaOf config d cs / ratioOf d)

/-- `idealW` of utils.ts line 42. -/
def idealWOf (config : TechNodeConfig) (d : NodeData) (cs : List ModuleNode) : ℝ :=
  idealHOf config d cs * ratioOf d

/-- `hL` of utils.ts line 44 (the local-logic block height). -/
def localHOf (config : TechNodeConfig) (d : NodeData) : ℝ :=
  Real.sqrt (localAreaOf config d / effARData d)

/-- `wL` of utils.ts line 45 (the local-logic block width). -/
def localWOf (config : TechNodeConfig) (d : NodeData) : ℝ :=
  localHOf config d * effARData d

/-- `maxContentX` of utils.ts lines 47-53. -/
def maxContentXOf (config : TechNodeConfig) (d : NodeData) (cs : List ModuleNode) : ℝ :=
  cs.foldl (fun m c => max m (jsOr c.x 0 + (calculatePhysicalSize config c).w))
    (jsOr d.internalX 0 + localWOf config d)

/-- `maxContentY` of utils.ts lines 48-53. -/
def maxContentYOf (config : TechNodeConfig) (d : NodeData) (cs : List ModuleNode) : ℝ :=
  cs.foldl (fun m c => max m (jsOr c.y 0 + (calculatePhysicalSize config c).h))
    (jsOr d.internalY 0 + localHOf config d)

/-- `W_min` of utils.ts line 59. -/
def WminOf (config : TechNodeConfig) (d : NodeData) (cs : List ModuleNode) : ℝ :=
  maxContentXOf config d cs + GLOBAL_MARGIN * 2

/-- `H_min` of utils.ts line 60. -/
def HminOf (config : TechNodeConfig) (d : NodeData) (cs : List ModuleNode) : ℝ :=
  maxContentYOf config d cs + GLOBAL_MARGIN * 2 + GLOBAL_HEADER

/-- `minFeasibleRatio` before the sort of utils.ts line 79. -/
def minRawRatioOf (config : TechNodeConfig) (d : NodeData) (cs : List ModuleNode) : ℝ :=
  WminOf config d cs * WminOf config d cs / totalContentAreaOf config d cs

/-- `maxFeasibleRatio` before the sort of utils.ts line 80. -/
def maxRawRatioOf (config : TechNodeConfig) (d : NodeData) (cs : List ModuleNode) : ℝ :=
  totalContentAreaOf config d cs / (HminOf config d cs * HminOf config d cs)

/-- `calculatePhysicalSize` on a destructured node, written with the named
helper definitions above. -/
theorem calculatePhysicalSize_mk (config : TechNodeConfig) (d : NodeData) (cs : List ModuleNode) :
    calculatePhysicalSize config (.mk d cs) =
    { w := max (idealWOf config d cs) (WminOf config d cs),
      h := max (idealHOf config d cs) (HminOf config d cs),
      stats :=
        { id := d.id, name := d.name,
          localArea := localAreaOf config d,
          childrenArea := childrenAreaSumOf config cs,
          totalArea := max (idealWOf config d cs) (WminOf config d cs) *
            max (idealHOf config d cs) (HminOf config d cs),
          regArea := regAreaOf config d, memArea := memAreaOf config d,
          logicArea := logicAreaOf config d,
          utilizationOverhead := max (idealWOf config d cs) (WminOf config d cs) *
            max (idealHOf config d cs) (HminOf config d cs) * config.utilization -
            rawLocalAreaOf config d,
          calculatedWidth := max (idealWOf config d cs) (WminOf config d cs),
          calculatedHeight := max (idealHOf config d cs) (HminOf config d cs),
          idealWidth := idealWOf config d cs, idealHeight := idealHOf config d cs,
          minFeasibleRatio := min (minRawRatioOf config d cs) (maxRawRatioOf config d cs),
          maxFeasibleRatio := max (minRawRatioOf config d cs) (maxRawRatioOf config d cs) } } := by
  rw [calculatePhysicalSize]
  have hattach : cs.attach.map (fun c => (c.1, calculatePhysicalSize config c.1)) =
      cs.map (fun c => (c, calculatePhysicalSize config c)) :=
    List.attach_map_val cs (fun c => (c, calculatePhysicalSize config c))
  rw [hattach, List.foldl_map, List.foldl_map, List.foldl_map]
  rfl

instance : Inhabited ModuleNode := ⟨.mk default []⟩

/-- `{ ...node, x, y }`: a node with its `x`/`y` fields replaced (the
child-coordinate write-back of utils.ts line 236). -/
def ModuleNode.withXY : ModuleNode → ℝ → ℝ → ModuleNode
  | .mk d cs, a, b => .mk { d with x := a, y := b } cs

@[simp] theorem ModuleNode.withXY_mk (d : NodeData) (cs : List ModuleNode) (a b : ℝ) :
    (ModuleNode.mk d cs).withXY a b = .mk { d with x := a, y := b } cs := rfl

/-- One entry of the candidate rectangle list built by
`checkOverlapsInModule` (utils.ts lines 124-130). -/
structure Block where
  id : String
  name : String
  x : ℝ
  y : ℝ
  w : ℝ
  h : ℝ

/-- The candidate rectangle list of `checkOverlapsInModule` (utils.ts lines
124-130): the local-logic block under the sentinel id `"internal"`, then one
entry per direct child sized by the Area Calculator. -/
def blocksOf (config : TechNodeConfig) (n : ModuleNode) : List Block :=
  let stats := (calculatePhysicalSize config n).stats
  let localH := Real.sqrt (stats.localArea / effectiveInternalAR n)
  let localW := localH * effectiveInternalAR n
  { id := "internal", name := "[Local Logic]", x := jsOr n.internalX 0,
    y := jsOr n.internalY 0, w := localW, h := localH } ::
  n.children.map (fun c =>
    { id := c.id, name := c.name, x := jsOr c.x 0, y := jsOr c.y 0,
      w := (calculatePhysicalSize config c).w, h := (calculatePhysicalSize config c).h })

/-- The body of the inner loop of `checkOverlapsInModule` (utils.ts lines
137-141): the marker produced by an ordered pair of blocks, if any. -/
def mkMarker (a b : Block) : Option OverlapMarker :=
  let xOverlap := max 0 (min (a.x + a.w) (b.x + b.w) - max a.x b.x)
  let yOverlap := max 0 (min (a.y + a.h) (b.y + b.h) - max a.y b.y)
  if 0 < xOverlap ∧ 0 < yOverlap then
    some { x := max a.x b.x, y := max a.y b.y, w := xOverlap, h := yOverlap,
           ids := (a.id, b.id) }
  else none

/-- The double loop of `checkOverlapsInModule` (utils.ts lines 133-143):
markers over all index pairs `i < j`, in loop order. -/
def pairMarkers : List Block → List OverlapMarker
  | [] => []
  | a :: rest => rest.filterMap (mkMarker a) ++ pairMarkers rest

/-- `checkOverlapsInModule` (utils.ts lines 118-145). -/
def checkOverlapsInModule (config : TechNodeConfig) (n : ModuleNode) : List OverlapMarker :=
  pairMarkers (blocksOf config n)

/-- `Partial<ModuleNode>`: each field optionally present. -/
structure PartialNode where
  id : Option String := none
  name : Option String := none
  registers : Option ℝ := none
  memoryBits : Option ℝ := none
  logicGates : Option ℝ := none
  x : Option ℝ := none
  y : Option ℝ := none
  internalX : Option ℝ := none
  internalY : Option ℝ := none
  aspectRatio : Option ℝ := none
  internalAspectRatio : Option ℝ := none
  isRatioLinked : Option Bool := none
  children : Option (List ModuleNode) := none

/-- The object-spread merge `{ ...root, ...updates }` of utils.ts line 148. -/
def applyPartial (u : PartialNode) : ModuleNode → ModuleNode
  | .mk d cs => .mk
    { id := u.id.getD d.id, name := u.name.getD d.name,
      registers := u.registers.getD d.registers,
      memoryBits := u.memoryBits.getD d.memoryBits,
      logicGates := u.logicGates.getD d.logicGates,
      x := u.x.getD d.x, y := u.y.getD d.y,
      internalX := u.internalX.getD d.internalX,
      internalY := u.internalY.getD d.internalY,
      aspectRatio := u.aspectRatio.getD d.aspectRatio,
      internalAspectRatio := u.internalAspectRatio.getD d.internalAspectRatio,
      isRatioLinked := u.isRatioLinked.getD d.isRatioLinked }
    (u.children.getD cs)

/-- `updateNodeInTree` (utils.ts lines 147-150). -/
def updateNodeInTree (id : String) (updates : PartialNode) : ModuleNode → ModuleNode
  | .mk d cs =>
    if d.id = id then applyPartial updates (.mk d cs)
    else .mk d (cs.attach.map fun c => updateNodeInTree id updates c.1)
decreasing_by
  have := List.sizeOf_lt_of_mem c.2
  simp only [ModuleNode.mk.sizeOf_spec]
  omega

/-- `deleteNodeInTree` (utils.ts lines 164-167); the `map`-then-filter of
non-null results is the `reduceOption` of the mapped list. -/
def deleteNodeInTree (id : String) : ModuleNode → Option ModuleNode
  | .mk d cs =>
    if d.id = id then none
    else some (.mk d (cs.attach.map fun c => deleteNodeInTree id c.1).reduceOption)
decreasing_by
  have := List.sizeOf_lt_of_mem c.2
  simp only [ModuleNode.mk.sizeOf_spec]
  omega

/-- `addNodeToParent` (utils.ts lines 169-172). -/
def addNodeToParent (pId : String) (newNode : ModuleNode) : ModuleNode → ModuleNode
  | .mk d cs =>
    if d.id = pId then .mk d (cs ++ [newNode])
    else .mk d (cs.attach.map fun c => addNodeToParent pId newNode c.1)
decreasing_by
  have := List.sizeOf_lt_of_mem c.2
  simp only [ModuleNode.mk.sizeOf_spec]
  omega

/-- The set of `id` values occurring in a tree, as a list (a specification
helper used to state that an id is "not present in the tree"). -/
def treeIds : ModuleNode → List String
  | .mk d cs => d.id :: (cs.attach.map fun c => treeIds c.1).flatten
decreasing_by
  have := List.sizeOf_lt_of_mem c.2
  simp only [ModuleNode.mk.sizeOf_spec]
  omega

/-- One entry of the entity array of `organizeChildrenMosaic` (utils.ts
lines 196-202).  The source's local-logic entry carries no `original`
field; here `orig` of the local entry is set to the node itself, and it is
never read (the local entry is filtered out before `original` is used). -/
structure Entity where
  isLocal : Bool
  id : String
  x : ℝ
  y : ℝ
  w : ℝ
  h : ℝ
  orig : ModuleNode

instance : Inhabited Entity :=
  ⟨{ isLocal := false, id := "", x := 0, y := 0, w := 0, h := 0, orig := default }⟩

/-- The comparator `(a, b) => a.y - b.y || a.x - b.x` of utils.ts line 205,
as the total preorder it sorts by. -/
def byYX (a b : Entity) : Prop := a.y < b.y ∨ (a.y = b.y ∧ a.x ≤ b.x)

/-- The comparator `(a, b) => a.x - b.x || a.y - b.y` of utils.ts line 219. -/
def byXY (a b : Entity) : Prop := a.x < b.x ∨ (a.x = b.x ∧ a.y ≤ b.y)

instance : DecidableRel byYX := fun a b =>
  inferInstanceAs (Decidable (a.y < b.y ∨ (a.y = b.y ∧ a.x ≤ b.x)))

instance : DecidableRel byXY := fun a b =>
  inferInstanceAs (Decidable (a.x < b.x ∨ (a.x = b.x ∧ a.y ≤ b.y)))

/-- The inner scan of the vertical pass (utils.ts lines 207-215): the
`bestY` accumulated over the entities processed before `e`, in order. -/
def bestYFor (done : List Entity) (e : Entity) : ℝ :=
  done.foldl (fun bestY other =>
    if 1 < min (e.x + e.w) (other.x + other.w) - max e.x other.x
    then max bestY (other.y + other.h + INTER_MODULE_GAP) else bestY) 0

/-- The vertical pass `forEach` (utils.ts lines 206-216): entities processed
in order, each receiving `y := bestY` computed from the already-processed
prefix (the `for … of` with the identity `break` scans exactly that
prefix). -/
def sweepYGo : List Entity → List Entity → List Entity
  | done, [] => done
  | done, e :: rest => sweepYGo (done ++ [{ e with y := bestYFor done e }]) rest

/-- The inner scan of the horizontal pass (utils.ts lines 221-229). -/
def bestXFor (done : List Entity) (e : Entity) : ℝ :=
  done.foldl (fun bestX other =>
    if 1 < min (e.y + e.h) (other.y + other.h) - max e.y other.y
    then max bestX (other.x + other.w + INTER_MODULE_GAP) else bestX) 0

/-- The horizontal pass `forEach` (utils.ts lines 220-230). -/
def sweepXGo : List Entity → List Entity → List Entity
  | done, [] => done
  | done, e :: rest => sweepXGo (done ++ [{ e with x := bestXFor done e }]) rest

/-- `Number(v.toFixed(2))` (utils.ts line 249): round to two decimals, ties
away from zero; on the nonnegative values it receives this is `⌊100·v + 1/2⌋ / 100`,
which is Mathlib's `round`. -/
def toFixed2 (v : ℝ) : ℝ := ((round (v * 100) : ℤ) : ℝ) / 100

/-- The entity array of `organizeChildrenMosaic` (utils.ts lines 190-202):
the local-logic block first, then the children with Area-Calculator sizes. -/
def mosaicEntities (config : TechNodeConfig) (n : ModuleNode) : List Entity :=
  let stats := (calculatePhysicalSize config n).stats
  let localH := Real.sqrt (stats.localArea / effectiveInternalAR n)
  let localW := localH * effectiveInternalAR n
  { isLocal := true, id := "internal", x := jsOr n.internalX 0, y := jsOr n.internalY 0,
    w := localW, h := localH, orig := n } ::
  n.children.map (fun c =>
    { isLocal := false, id := c.id, x := jsOr c.x 0, y := jsOr c.y 0,
      w := (calculatePhysicalSize config c).w, h := (calculatePhysicalSize config c).h,
      orig := c })

/-- The entity array after the two in-place sort+sweep passes of
`organizeChildrenMosaic` (utils.ts lines 204-230): stable sort by `(y, x)`,
vertical sweep, stable sort by `(x, y)`, horizontal sweep. -/
def finalEntities (config : TechNodeConfig) (n : ModuleNode) : List Entity :=
  sweepXGo [] (List.insertionSort byXY (sweepYGo [] (List.insertionSort byYX (mosaicEntities config n))))

/-- `organizeChildrenMosaic` (utils.ts lines 182-259).  The childless branch
is lines 186-188; in the main branch, `localLogic` is the `find` of line
233 (the non-null assertion `!` is `getD default`; the proofs below show
the local entity is in fact always found), `updatedChildren` the
filter-map of lines 234-236, and the single bounding-box `forEach` of
lines 241-245 is again two independent folds. -/
def organizeChildrenMosaic (config : TechNodeConfig) : ModuleNode → ModuleNode
  | .mk d [] => .mk { d with internalX := 0, internalY := 0 } []
  | .mk d (c0 :: rest) =>
    let entities := finalEntities config (.mk d (c0 :: rest))
    let localLogic := (entities.find? (fun e => e.isLocal)).getD default
    let updatedChildren := (entities.filter (fun e => !e.isLocal)).map
      (fun e => e.orig.withXY e.x e.y)
    let maxX := updatedChildren.foldl
      (fun m ch => max m (ch.x + (calculatePhysicalSize config ch).w))
      (localLogic.x + localLogic.w)
    let maxY := updatedChildren.foldl
      (fun m ch => max m (ch.y + (calculatePhysicalSize config ch).h))
      (localLogic.y + localLogic.h)
    let finalContentW := maxX + GLOBAL_MARGIN * 2
    let finalContentH := maxY + GLOBAL_MARGIN * 2 + GLOBAL_HEADER
    let actualRatio := toFixed2 (finalContentW / finalContentH)
    .mk { d with internalX := localLogic.x, internalY := localLogic.y,
                 aspectRatio := actualRatio,
                 internalAspectRatio :=
                   if d.isRatioLinked then actualRatio else d.internalAspectRatio }
      updatedChildren

@[simp] theorem ModuleNode.id_mk (d : NodeData) (cs : List ModuleNode) :
    (ModuleNode.mk d cs).id = d.id := rfl

@[simp] theorem ModuleNode.name_mk (d : NodeData) (cs : List ModuleNode) :
    (ModuleNode.mk d cs).name = d.name := rfl

@[simp] theorem ModuleNode.x_mk (d : NodeData) (cs : List ModuleNode) :
    (ModuleNode.mk d cs).x = d.x := rfl

@[simp] theorem ModuleNode.y_mk (d : NodeData) (cs : List ModuleNode) :
    (ModuleNode.mk d cs).y = d.y := rfl

@[simp] theorem ModuleNode.internalX_mk (d : NodeData) (cs : List ModuleNode) :
    (ModuleNode.mk d cs).internalX = d.internalX := rfl

@[simp] theorem ModuleNode.internalY_mk (d : NodeData) (cs : List ModuleNode) :
    (ModuleNode.mk d cs).internalY = d.internalY := rfl

@[simp] theorem ModuleNode.aspectRatio_mk (d : NodeData) (cs : List ModuleNode) :
    (ModuleNode.mk d cs).aspectRatio = d.aspectRatio := rfl

@[simp] theorem ModuleNode.internalAspectRatio_mk (d : NodeData) (cs : List ModuleNode) :
    (ModuleNode.mk d cs).internalAspectRatio = d.internalAspectRatio := rfl

@[simp] theorem ModuleNode.isRatioLinked_mk (d : NodeData) (cs : List ModuleNode) :
    (ModuleNode.mk d cs).isRatioLinked = d.isRatioLinked := rfl

@[simp] theorem effectiveInternalAR_mk (d : NodeData) (cs : List ModuleNode) :
    effectiveInternalAR (.mk d cs) = effARData d := rfl

@[simp] theorem calc_w_mk (config : TechNodeConfig) (d : NodeData) (cs : List ModuleNode) :
    (calculatePhysicalSize config (.mk d cs)).w = max (idealWOf config d cs) (WminOf config d cs) := by
  rw [calculatePhysicalSize_mk]

@[simp] theorem calc_h_mk (config : TechNodeConfig) (d : NodeData) (cs : List ModuleNode) :
    (calculatePhysicalSize config (.mk d cs)).h = max (idealHOf config d cs) (HminOf config d cs) := by
  rw [calculatePhysicalSize_mk]

@[simp] theorem calc_stats_localArea (config : TechNodeConfig) (d : NodeData) (cs : List ModuleNode) :
    (calculatePhysicalSize config (.mk d cs)).stats.localArea = localAreaOf config d := by
  rw [calculatePhysicalSize_mk]

@[simp] theorem calc_stats_totalArea (config : TechNodeConfig) (d : NodeData) (cs : List ModuleNode) :
    (calculatePhysicalSize config (.mk d cs)).stats.totalArea =
      max (idealWOf config d cs) (WminOf config d cs) *
      max (idealHOf config d cs) (HminOf config d cs) := by
  rw [calculatePhysicalSize_mk]

@[simp] theorem calc_stats_calculatedWidth (config : TechNodeConfig) (d : NodeData) (cs : List ModuleNode) :
    (calculatePhysicalSize config (.mk d cs)).stats.calculatedWidth =
      max (idealWOf config d cs) (WminOf config d cs) := by
  rw [calculatePhysicalSize_mk]

@[simp] theorem calc_stats_calculatedHeight (config : TechNodeConfig) (d : NodeData) (cs : List ModuleNode) :
    (calculatePhysicalSize config (.mk d cs)).stats.calculatedHeight =
      max (idealHOf config d cs) (HminOf config d cs) := by
  rw [calculatePhysicalSize_mk]

@[simp] theorem calc_stats_idealWidth (config : TechNodeConfig) (d : NodeData) (cs : List ModuleNode) :
    (calculatePhysicalSize config (.mk d cs)).stats.idealWidth = idealWOf config d cs := by
  rw [calculatePhysicalSize_mk]

@[simp] theorem calc_stats_idealHeight (config : TechNodeConfig) (d : NodeData) (cs : List ModuleNode) :
    (calculatePhysicalSize config (.mk d cs)).stats.idealHeight = idealHOf config d cs := by
  rw [calculatePhysicalSize_mk]

@[simp] theorem calc_stats_minFeasibleRatio (config : TechNodeConfig) (d : NodeData) (cs : List ModuleNode) :
    (calculatePhysicalSize config (.mk d cs)).stats.minFeasibleRatio =
      min (minRawRatioOf config d cs) (maxRawRatioOf config d cs) := by
  rw [calculatePhysicalSize_mk]

@[simp] theorem calc_stats_maxFeasibleRatio (config : TechNodeConfig) (d : NodeData) (cs : List ModuleNode) :
    (calculatePhysicalSize config (.mk d cs)).stats.maxFeasibleRatio =
      max (minRawRatioOf config d cs) (maxRawRatioOf config d cs) := by
  rw [calculatePhysicalSize_mk]

/-- `calculatePhysicalSize` never reads a node's own `x`/`y`: replacing
them leaves the result unchanged. -/
theorem calc_withXY (config : TechNodeConfig) (n : ModuleNode) (a b : ℝ) :
    calculatePhysicalSize config (n.withXY a b) = calculatePhysicalSize config n := by
  obtain ⟨d, cs⟩ := n
  rw [ModuleNode.withXY_mk, calculatePhysicalSize_mk, calculatePhysicalSize_mk]
  rfl

/-- A fold whose step never decreases the accumulator is bounded below by
its initial value. -/
theorem le_foldl_of_step_le {α : Type} (f : ℝ → α → ℝ) (hf : ∀ b o, b ≤ f b o)
    (l : List α) (b : ℝ) : b ≤ l.foldl f b := by
  induction l generalizing b with
  | nil => exact le_rfl
  | cons o l ih => exact le_trans (hf b o) (ih (f b o))

/-- A fold whose step never decreases the accumulator, and whose step at a
particular element dominates `c`, produces a value dominating `c`. -/
theorem foldl_ge_of_mem {α : Type} (f : ℝ → α → ℝ) (hf : ∀ b o, b ≤ f b o)
    (l : List α) (b : ℝ) (o : α) (ho : o ∈ l) (c : ℝ) (hc : ∀ b', c ≤ f b' o) :
    c ≤ l.foldl f b := by
  induction l generalizing b with
  | nil => cases ho
  | cons a l ih =>
    rcases List.mem_cons.1 ho with rfl | hmem
    · exact le_trans (hc b) (le_foldl_of_step_le f hf l (f b o))
    · exact ih _ hmem

theorem bestYFor_step_le (e : Entity) :
    ∀ (b : ℝ) (o : Entity), b ≤
      (if 1 < min (e.x + e.w) (o.x + o.w) - max e.x o.x
       then max b (o.y + o.h + INTER_MODULE_GAP) else b) := by
  intro b o
  split
  · exact le_max_left _ _
  · exact le_rfl

theorem bestXFor_step_le (e : Entity) :
    ∀ (b : ℝ) (o : Entity), b ≤
      (if 1 < min (e.y + e.h) (o.y + o.h) - max e.y o.y
       then max b (o.x + o.w + INTER_MODULE_GAP) else b) := by
  intro b o
  split
  · exact le_max_left _ _
  · exact le_rfl

/-- `bestY` starts at 0 and only grows. -/
theorem bestYFor_nonneg (done : List Entity) (e : Entity) : 0 ≤ bestYFor done e :=
  le_foldl_of_step_le _ (bestYFor_step_le e) done 0

/-- `bestX` starts at 0 and only grows. -/
theorem bestXFor_nonneg (done : List Entity) (e : Entity) : 0 ≤ bestXFor done e :=
  le_foldl_of_step_le _ (bestXFor_step_le e) done 0

/-- Every already-processed entity whose x-span overlaps `e` by more than 1
pushes `bestY` to at least its bottom edge plus the gap. -/
theorem bestYFor_ge (done : List Entity) (e o : Entity) (ho : o ∈ done)
    (hov : 1 < min (e.x + e.w) (o.x + o.w) - max e.x o.x) :
    o.y + o.h + INTER_MODULE_GAP ≤ bestYFor done e := by
  refine foldl_ge_of_mem _ (bestYFor_step_le e) done 0 o ho _ ?_
  intro b'
  rw [if_pos hov]
  exact le_max_right _ _

/-- Every already-processed entity whose y-span overlaps `e` by more than 1
pushes `bestX` to at least its right edge plus the gap. -/
theorem bestXFor_ge (done : List Entity) (e o : Entity) (ho : o ∈ done)
    (hov : 1 < min (e.y + e.h) (o.y + o.h) - max e.y o.y) :
    o.x + o.w + INTER_MODULE_GAP ≤ bestXFor done e := by
  refine foldl_ge_of_mem _ (bestXFor_step_le e) done 0 o ho _ ?_
  intro b'
  rw [if_pos hov]
  exact le_max_right _ _

/-- All fields but `y` of the entities, in order, are unchanged by the
vertical sweep. -/
theorem sweepYGo_map (done todo : List Entity) :
    (sweepYGo done todo).map (fun e => (e.isLocal, e.id, e.x, e.w, e.h, e.orig)) =
      done.map (fun e => (e.isLocal, e.id, e.x, e.w, e.h, e.orig)) ++
      todo.map (fun e => (e.isLocal, e.id, e.x, e.w, e.h, e.orig)) := by
  induction todo generalizing done with
  | nil => simp [sweepYGo]
  | cons e rest ih =>
    rw [sweepYGo, ih]
    simp

/-- All fields but `x` of the entities, in order, are unchanged by the
horizontal sweep. -/
theorem sweepXGo_map (done todo : List Entity) :
    (sweepXGo done todo).map (fun e => (e.isLocal, e.id, e.y, e.w, e.h, e.orig)) =
      done.map (fun e => (e.isLocal, e.id, e.y, e.w, e.h, e.orig)) ++
      todo.map (fun e => (e.isLocal, e.id, e.y, e.w, e.h, e.orig)) := by
  induction todo generalizing done with
  | nil => simp [sweepXGo]
  | cons e rest ih =>
    rw [sweepXGo, ih]
    simp

/-- Every entity leaving the vertical sweep has a nonnegative `y`. -/
theorem sweepYGo_forall_y (done todo : List Entity) (hd : ∀ e ∈ done, 0 ≤ e.y) :
    ∀ e ∈ sweepYGo done todo, 0 ≤ e.y := by
  induction todo generalizing done with
  | nil => simpa [sweepYGo] using hd
  | cons e rest ih =>
    rw [sweepYGo]
    refine ih _ ?_
    intro a ha
    rcases List.mem_append.1 ha with h | h
    · exact hd a h
    · rcases List.mem_singleton.1 h with rfl
      exact bestYFor_nonneg done e

/-- Every entity leaving the horizontal sweep has a nonnegative `x`. -/
theorem sweepXGo_forall_x (done todo : List Entity) (hd : ∀ e ∈ done, 0 ≤ e.x) :
    ∀ e ∈ sweepXGo done todo, 0 ≤ e.x := by
  induction todo generalizing done with
  | nil => simpa [sweepXGo] using hd
  | cons e rest ih =>
    rw [sweepXGo]
    refine ih _ ?_
    intro a ha
    rcases List.mem_append.1 ha with h | h
    · exact hd a h
    · rcases List.mem_singleton.1 h with rfl
      exact bestXFor_nonneg done e

/-- A property untouched by `x`-updates survives the horizontal sweep. -/
theorem sweepXGo_forall_pres (P : Entity → Prop) (hP : ∀ e v, P e → P { e with x := v })
    (done todo : List Entity) (hd : ∀ e ∈ done, P e) (ht : ∀ e ∈ todo, P e) :
    ∀ e ∈ sweepXGo done todo, P e := by
  induction todo generalizing done with
  | nil => simpa [sweepXGo] using hd
  | cons e rest ih =>
    rw [sweepXGo]
    refine ih _ ?_ (fun a ha => ht a (List.mem_cons_of_mem _ ha))
    intro a ha
    rcases List.mem_append.1 ha with h | h
    · exact hd a h
    · rcases List.mem_singleton.1 h with rfl
      exact hP _ _ (ht e (List.mem_cons_self e rest))

/-- The ordering invariant established by the horizontal sweep: an entity
processed later rests strictly to the right of every earlier entity whose
y-span overlaps it by more than 1. -/
def Rx (o e : Entity) : Prop :=
  1 < min (o.y + o.h) (e.y + e.h) - max o.y e.y → o.x + o.w + INTER_MODULE_GAP ≤ e.x

/-- The horizontal sweep leaves its output pairwise `Rx`-ordered. -/
theorem sweepXGo_pairwise (done todo : List Entity) (hp : List.Pairwise Rx done) :
    List.Pairwise Rx (sweepXGo done todo) := by
  induction todo generalizing done with
  | nil => simpa [sweepXGo] using hp
  | cons e rest ih =>
    rw [sweepXGo]
    refine ih _ ?_
    rw [List.pairwise_append]
    refine ⟨hp, List.pairwise_singleton _ _, ?_⟩
    intro o ho b hb
    rcases List.mem_singleton.1 hb with rfl
    intro hov
    show o.x + o.w + INTER_MODULE_GAP ≤ bestXFor done e
    refine bestXFor_ge done e o ho ?_
    calc (1:ℝ) < min (o.y + o.h) (e.y + e.h) - max o.y e.y := hov
    _ = min (e.y + e.h) (o.y + o.h) - max e.y o.y := by rw [min_comm, max_comm]

/-- The size-and-identity data of an entity: everything except its mutable
position `(x, y)`. -/
def entityKey (e : Entity) : Bool × String × ℝ × ℝ × ModuleNode :=
  (e.isLocal, e.id, e.w, e.h, e.orig)

/-- The sort-sweep-sort-sweep pipeline only permutes entities and rewrites
their positions: the multiset of size-and-identity data is preserved. -/
theorem finalEntities_key_perm (config : TechNodeConfig) (n : ModuleNode) :
    List.Perm ((finalEntities config n).map entityKey)
      ((mosaicEntities config n).map entityKey) := by
  unfold finalEntities
  set M := mosaicEntities config n with hM
  set L1 := List.insertionSort byYX M with hL1
  set L2 := sweepYGo [] L1 with hL2
  set L3 := List.insertionSort byXY L2 with hL3
  have e2 : L2.map entityKey = L1.map entityKey := by
    have h := sweepYGo_map [] L1
    have := congrArg (List.map (fun t : Bool × String × ℝ × ℝ × ℝ × ModuleNode =>
      (t.1, t.2.1, t.2.2.2))) h
    simpa [List.map_map, Function.comp_def, entityKey] using this
  have e4 : (sweepXGo [] L3).map entityKey = L3.map entityKey := by
    have h := sweepXGo_map [] L3
    have := congrArg (List.map (fun t : Bool × String × ℝ × ℝ × ℝ × ModuleNode =>
      (t.1, t.2.1, t.2.2.2))) h
    simpa [List.map_map, Function.comp_def, entityKey] using this
  rw [e4]
  refine ((List.perm_insertionSort byXY L2).map entityKey).trans ?_
  rw [e2]
  exact (List.perm_insertionSort byYX M).map entityKey

/-- What the size-and-identity data of an initial entity can be: the local
block, or a child with its Area-Calculator size. -/
theorem mosaic_key_cases (config : TechNodeConfig) (n : ModuleNode) (t : Bool × String × ℝ × ℝ × ModuleNode)
    (ht : t ∈ (mosaicEntities config n).map entityKey) :
    t = (true, "internal", localWOf config n.data, localHOf config n.data, n) ∨
    ∃ c ∈ n.children, t = (false, c.id, (calculatePhysicalSize config c).w,
      (calculatePhysicalSize config c).h, c) := by
  obtain ⟨d, cs⟩ := n
  simp only [mosaicEntities, List.map_cons, List.map_map, List.mem_cons, List.mem_map,
    Function.comp_def, entityKey, ModuleNode.children_mk] at ht ⊢
  rcases ht with h | ⟨c, hc, rfl⟩
  · left
    rw [h]
    have : (calculatePhysicalSize config (.mk d cs)).stats.localArea = localAreaOf config d :=
      calc_stats_localArea config d cs
    simp [localWOf, localHOf, this, effectiveInternalAR_mk]
  · right
    exact ⟨c, hc, rfl⟩

/-- Exactly one entity of the pipeline output is the local block. -/
theorem finalEntities_countP (config : TechNodeConfig) (n : ModuleNode) :
    (finalEntities config n).countP (fun e => e.isLocal) = 1 := by
  have hmap : ∀ l : List Entity,
      l.countP (fun e => e.isLocal) = (l.map entityKey).countP (fun t => t.1) := by
    intro l
    rw [List.countP_map]
    rfl
  rw [hmap, List.Perm.countP_eq _ (finalEntities_key_perm config n), ← hmap]
  obtain ⟨d, cs⟩ := n
  simp only [mosaicEntities, ModuleNode.children_mk]
  rw [List.countP_cons]
  have hz : ∀ (g : ModuleNode → Entity), (∀ c, (g c).isLocal = false) →
      ∀ l : List ModuleNode, (l.map g).countP (fun e => e.isLocal) = 0 := by
    intro g hg l
    rw [List.countP_eq_zero]
    intro a ha
    rcases List.mem_map.1 ha with ⟨c, _, rfl⟩
    simp [hg c]
  rw [hz _ (fun c => rfl) cs]
  simp

/-- A list with exactly one element satisfying the flag splits around it. -/
theorem exists_local_split (l : List Entity) (h : l.countP (fun e => e.isLocal) = 1) :
    ∃ A ℓ B, l = A ++ ℓ :: B ∧ ℓ.isLocal = true ∧
      (∀ a ∈ A, a.isLocal = false) ∧ (∀ b ∈ B, b.isLocal = false) := by
  induction l with
  | nil => simp [List.countP_nil] at h
  | cons e l ih =>
    rw [List.countP_cons] at h
    cases hb : e.isLocal with
    | true =>
      rw [hb] at h
      simp only [if_true] at h
      have hzero : l.countP (fun e => e.isLocal) = 0 := by omega
      refine ⟨[], e, l, by simp, hb, by simp, ?_⟩
      intro b hbB
      have := List.countP_eq_zero.1 hzero b hbB
      simpa using this
    | false =>
      rw [hb] at h
      simp only [Bool.false_eq_true, if_false, add_zero] at h
      obtain ⟨A, ℓ, B, rfl, hl, hA, hB⟩ := ih h
      refine ⟨e :: A, ℓ, B, by simp, hl, ?_, hB⟩
      intro a ha
      rcases List.mem_cons.1 ha with rfl | ha
      · exact hb
      · exact hA a ha

/-- `find?` of the flag on a split list returns the flagged element. -/
theorem find?_local_split (A : List Entity) (ℓ : Entity) (B : List Entity)
    (hA : ∀ a ∈ A, a.isLocal = false) (hl : ℓ.isLocal = true) :
    (A ++ ℓ :: B).find? (fun e => e.isLocal) = some ℓ := by
  induction A with
  | nil => simpa using List.find?_cons_of_pos B hl
  | cons a A ih =>
    have ha : a.isLocal = false := hA a (List.mem_cons_self a A)
    rw [List.cons_append, List.find?_cons_of_neg _ (by simp [ha])]
    exact ih (fun x hx => hA x (List.mem_cons_of_mem a hx))

/-- Filtering the flag away from a split list keeps exactly the rest. -/
theorem filter_local_split (A : List Entity) (ℓ : Entity) (B : List Entity)
    (hA : ∀ a ∈ A, a.isLocal = false) (hl : ℓ.isLocal = true) (hB : ∀ b ∈ B, b.isLocal = false) :
    (A ++ ℓ :: B).filter (fun e => !e.isLocal) = A ++ B := by
  rw [List.filter_append, List.filter_cons]
  simp only [hl, Bool.not_true, Bool.false_eq_true, if_false]
  rw [List.filter_eq_self.2 (fun a ha => by simp [hA a ha]),
    List.filter_eq_self.2 (fun b hb => by simp [hB b hb])]

/-- The pipeline output is pairwise `Rx`-ordered. -/
theorem finalEntities_pairwise (config : TechNodeConfig) (n : ModuleNode) :
    List.Pairwise Rx (finalEntities config n) :=
  sweepXGo_pairwise [] _ (List.Pairwise.nil)

/-- Every pipeline-output entity has nonnegative coordinates. -/
theorem finalEntities_nonneg (config : TechNodeConfig) (n : ModuleNode) :
    ∀ e ∈ finalEntities config n, 0 ≤ e.x ∧ 0 ≤ e.y := by
  unfold finalEntities
  set M := mosaicEntities config n with hM
  set L1 := List.insertionSort byYX M with hL1
  set L2 := sweepYGo [] L1 with hL2
  set L3 := List.insertionSort byXY L2 with hL3
  have h2 : ∀ e ∈ L2, 0 ≤ e.y := sweepYGo_forall_y [] L1 (by simp)
  have h3 : ∀ e ∈ L3, 0 ≤ e.y := by
    intro e he
    exact h2 e ((List.perm_insertionSort byXY L2).mem_iff.1 he)
  intro e he
  refine ⟨sweepXGo_forall_x [] L3 (by simp) e he, ?_⟩
  exact sweepXGo_forall_pres (fun e => 0 ≤ e.y) (fun e v hv => hv) [] L3 (by simp) h3 e he

@[simp] theorem ModuleNode.withXY_x (n : ModuleNode) (a b : ℝ) : (n.withXY a b).x = a := by
  obtain ⟨d, cs⟩ := n; rfl

@[simp] theorem ModuleNode.withXY_y (n : ModuleNode) (a b : ℝ) : (n.withXY a b).y = b := by
  obtain ⟨d, cs⟩ := n; rfl

@[simp] theorem ModuleNode.withXY_id (n : ModuleNode) (a b : ℝ) : (n.withXY a b).id = n.id := by
  obtain ⟨d, cs⟩ := n; rfl

@[simp] theorem ModuleNode.withXY_name (n : ModuleNode) (a b : ℝ) : (n.withXY a b).name = n.name := by
  obtain ⟨d, cs⟩ := n; rfl

/-- Transport of the size-and-identity invariants from the initial entity
array to the pipeline output. -/
theorem finalEntities_key_transport (config : TechNodeConfig) (n : ModuleNode) (e : Entity)
    (he : e ∈ finalEntities config n) :
    (e.isLocal = true → e.w = localWOf config n.data ∧ e.h = localHOf config n.data) ∧
    (e.isLocal = false → ∃ c ∈ n.children, e.orig = c ∧
      e.w = (calculatePhysicalSize config c).w ∧ e.h = (calculatePhysicalSize config c).h) := by
  have hk : entityKey e ∈ (mosaicEntities config n).map entityKey :=
    (finalEntities_key_perm config n).mem_iff.1 (List.mem_map_of_mem _ he)
  rcases mosaic_key_cases config n _ hk with h | ⟨c, hc, h⟩
  · simp only [entityKey, Prod.mk.injEq] at h
    obtain ⟨hloc, _, hw, hh, _⟩ := h
    refine ⟨fun _ => ⟨hw, hh⟩, fun hfalse => ?_⟩
    rw [hloc] at hfalse
    cases hfalse
  · simp only [entityKey, Prod.mk.injEq] at h
    obtain ⟨hloc, _, hw, hh, horig⟩ := h
    refine ⟨fun htrue => ?_, fun _ => ⟨c, hc, horig, hw, hh⟩⟩
    rw [hloc] at htrue
    cases htrue

/-- The compactor rewrites geometry only: the resource counts, the link
flag, and (for an unlinked node) the stored internal ratio of the node
survive unchanged. -/
theorem org_scalars (config : TechNodeConfig) (d : NodeData) (cs : List ModuleNode) :
    (organizeChildrenMosaic config (.mk d cs)).data.registers = d.registers ∧
    (organizeChildrenMosaic config (.mk d cs)).data.memoryBits = d.memoryBits ∧
    (organizeChildrenMosaic config (.mk d cs)).data.logicGates = d.logicGates ∧
    (organizeChildrenMosaic config (.mk d cs)).data.isRatioLinked = d.isRatioLinked ∧
    (d.isRatioLinked = false →
      (organizeChildrenMosaic config (.mk d cs)).data.internalAspectRatio =
        d.internalAspectRatio) := by
  cases cs with
  | nil => exact ⟨rfl, rfl, rfl, rfl, fun _ => rfl⟩
  | cons c0 rest =>
    refine ⟨rfl, rfl, rfl, rfl, fun h => ?_⟩
    show (if d.isRatioLinked then _ else d.internalAspectRatio) = d.internalAspectRatio
    rw [h]
    rfl

/-- `organizeChildrenMosaic` on a node with children, through a split of
its entity pipeline output around the unique local entity: the new
`internalX`/`internalY` are the local entity's final position and the new
children are the non-local entities with their final positions. -/
theorem org_internals_of_split (config : TechNodeConfig) (d : NodeData) (c0 : ModuleNode)
    (rest : List ModuleNode) (A : List Entity) (ℓ : Entity) (B : List Entity)
    (hE : finalEntities config (.mk d (c0 :: rest)) = A ++ ℓ :: B)
    (hA : ∀ a ∈ A, a.isLocal = false) (hl : ℓ.isLocal = true)
    (hB : ∀ b ∈ B, b.isLocal = false) :
    (organizeChildrenMosaic config (.mk d (c0 :: rest))).internalX = ℓ.x ∧
    (organizeChildrenMosaic config (.mk d (c0 :: rest))).internalY = ℓ.y ∧
    (organizeChildrenMosaic config (.mk d (c0 :: rest))).children =
      (A ++ B).map (fun e => e.orig.withXY e.x e.y) := by
  simp only [organizeChildrenMosaic]
  rw [hE, find?_local_split A ℓ B hA hl, filter_local_split A ℓ B hA hl hB]
  exact ⟨rfl, rfl, rfl⟩

theorem calc_stats_localArea' (config : TechNodeConfig) (n : ModuleNode) :
    (calculatePhysicalSize config n).stats.localArea = localAreaOf config n.data := by
  obtain ⟨d, cs⟩ := n
  exact calc_stats_localArea config d cs

/-- The geometry (position and size quadruples) of the overlap-detector
block list. -/
theorem blocksOf_geom (config : TechNodeConfig) (n : ModuleNode) :
    (blocksOf config n).map (fun b => (b.x, b.y, b.w, b.h)) =
      (jsOr n.internalX 0, jsOr n.internalY 0, localWOf config n.data, localHOf config n.data) ::
      n.children.map (fun c => (jsOr c.x 0, jsOr c.y 0,
        (calculatePhysicalSize config c).w, (calculatePhysicalSize config c).h)) := by
  unfold blocksOf
  simp only [calc_stats_localArea', effectiveInternalAR, List.map_cons, List.map_map]
  rfl

/-- The geometric safety relation certified by the horizontal sweep: a
y-overlap beyond the 1-unit tolerance forces a nonpositive raw x-overlap. -/
def SafeG (a b : ℝ × ℝ × ℝ × ℝ) : Prop :=
  1 < min (a.2.1 + a.2.2.2) (b.2.1 + b.2.2.2) - max a.2.1 b.2.1 →
  min (a.1 + a.2.2.1) (b.1 + b.2.2.1) - max a.1 b.1 ≤ 0

theorem SafeG_symm : ∀ {a b : ℝ × ℝ × ℝ × ℝ}, SafeG a b → SafeG b a := by
  intro a b h hov
  rw [min_comm, max_comm] at hov
  have := h hov
  rw [min_comm, max_comm] at this
  exact this

theorem Rx_safe {o e : Entity} (h : Rx o e) :
    SafeG (o.x, o.y, o.w, o.h) (e.x, e.y, e.w, e.h) := by
  intro hov
  have h1 : o.x + o.w + INTER_MODULE_GAP ≤ e.x := h hov
  have h2 : min (o.x + o.w) (e.x + e.w) ≤ o.x + o.w := min_le_left _ _
  have h3 : e.x ≤ max o.x e.x := le_max_right _ _
  have hgap : (0:ℝ) < INTER_MODULE_GAP := by norm_num [INTER_MODULE_GAP]
  simp only []
  linarith

/-- On a block list pairwise related by `SafeG`, every emitted overlap
marker has height at most 1. -/
theorem pairMarkers_h_le (l : List Block)
    (hp : List.Pairwise (fun a b => SafeG (a.x, a.y, a.w, a.h) (b.x, b.y, b.w, b.h)) l) :
    ∀ m ∈ pairMarkers l, m.h ≤ 1 := by
  induction l with
  | nil => intro m hm; simp [pairMarkers] at hm
  | cons a rest ih =>
    rcases List.pairwise_cons.1 hp with ⟨ha, hrest⟩
    intro m hm
    rw [pairMarkers] at hm
    rcases List.mem_append.1 hm with hm | hm
    · rcases List.mem_filterMap.1 hm with ⟨b, hb, hmk⟩
      have hs := ha b hb
      simp only [mkMarker] at hmk
      by_cases hcond : 0 < max 0 (min (a.x + a.w) (b.x + b.w) - max a.x b.x) ∧
          0 < max 0 (min (a.y + a.h) (b.y + b.h) - max a.y b.y)
      · rw [if_pos hcond] at hmk
        have hmh : m.h = max 0 (min (a.y + a.h) (b.y + b.h) - max a.y b.y) := by
          cases hmk
          rfl
        by_contra hgt
        push_neg at hgt
        have hyraw : 1 < min (a.y + a.h) (b.y + b.h) - max a.y b.y := by
          rcases le_or_lt (min (a.y + a.h) (b.y + b.h) - max a.y b.y) 0 with hle | hpos
          · rw [hmh, max_eq_left hle] at hgt
            linarith
          · rw [hmh, max_eq_right hpos.le] at hgt
            exact hgt
        have hxraw : min (a.x + a.w) (b.x + b.w) - max a.x b.x ≤ 0 := hs hyraw
        rw [max_eq_left hxraw] at hcond
        exact lt_irrefl 0 hcond.1
      · rw [if_neg hcond] at hmk
        cases hmk
    · exact ih hrest m hm

/-- The block list of the compacted node, as final-entity geometry. -/
theorem blocksOf_org_geom (config : TechNodeConfig) (d : NodeData) (c0 : ModuleNode)
    (rest : List ModuleNode) (hlink : d.isRatioLinked = false) :
    ∃ A ℓ B, finalEntities config (.mk d (c0 :: rest)) = A ++ ℓ :: B ∧
      (blocksOf config (organizeChildrenMosaic config (.mk d (c0 :: rest)))).map
        (fun b => (b.x, b.y, b.w, b.h)) =
      (ℓ.x, ℓ.y, ℓ.w, ℓ.h) :: (A ++ B).map (fun e => (e.x, e.y, e.w, e.h)) := by
  obtain ⟨A, ℓ, B, hE, hl, hA, hB⟩ :=
    exists_local_split _ (finalEntities_countP config (.mk d (c0 :: rest)))
  refine ⟨A, ℓ, B, hE, ?_⟩
  obtain ⟨hiX, hiY, hch⟩ := org_internals_of_split config d c0 rest A ℓ B hE hA hl hB
  obtain ⟨hreg, hmem, hgat, hlnk, hiar⟩ := org_scalars config d (c0 :: rest)
  have hloc : localAreaOf config (organizeChildrenMosaic config (.mk d (c0 :: rest))).data =
      localAreaOf config d := by
    unfold localAreaOf rawLocalAreaOf regAreaOf memAreaOf logicAreaOf
    rw [hreg, hmem, hgat]
  have heff : effARData (organizeChildrenMosaic config (.mk d (c0 :: rest))).data =
      effARData d := by
    unfold effARData
    rw [hlnk, hlink, hiar hlink]
    simp
  have hℓmem : ℓ ∈ finalEntities config (.mk d (c0 :: rest)) := by
    rw [hE]
    exact List.mem_append_right _ (List.mem_cons_self ℓ B)
  have hℓwh := (finalEntities_key_transport config _ ℓ hℓmem).1 hl
  rw [ModuleNode.data_mk] at hℓwh
  rw [blocksOf_geom, hiX, hiY, hch, List.map_map]
  congr 1
  · rw [localWOf, localHOf, hloc, heff, ← localHOf, ← localWOf]
    simp [hℓwh.1, hℓwh.2]
  · refine List.map_congr_left ?_
    intro e he
    have hemem : e ∈ finalEntities config (.mk d (c0 :: rest)) := by
      rw [hE]
      rcases List.mem_append.1 he with h | h
      · exact List.mem_append_left _ h
      · exact List.mem_append_right _ (List.mem_cons_of_mem ℓ h)
    have hfalse : e.isLocal = false := (List.mem_append.1 he).elim (hA e) (hB e)
    obtain ⟨c, hc, horig, hw, hh⟩ := (finalEntities_key_transport config _ e hemem).2 hfalse
    simp [Function.comp_def, horig, calc_withXY, ← hw, ← hh]

/-- C1 (amended): for every module node with at least one child whose
`isRatioLinked` is false and every tech config, re-running the Overlap
Detector after the Compactor yields only markers of height at most 1 (the
sweep's 1-unit overlap tolerance); the marker list need not be empty, so
the original claim's "returns an empty list" fails (see the
counterexample), and for ratio-linked nodes even this bound fails because
the updated aspect ratio reshapes the local-logic block after the sweep. -/
theorem C1_compactor_residual_markers (config : TechNodeConfig) (d : NodeData)
    (c0 : ModuleNode) (rest : List ModuleNode) (hlink : d.isRatioLinked = false) :
    ∀ m ∈ checkOverlapsInModule config (organizeChildrenMosaic config (.mk d (c0 :: rest))),
      m.h ≤ 1 := by
  obtain ⟨A, ℓ, B, hE, hgeom⟩ := blocksOf_org_geom config d c0 rest hlink
  have hpair0 : List.Pairwise Rx (finalEntities config (.mk d (c0 :: rest))) :=
    finalEntities_pairwise config _
  have hpair1 : List.Pairwise SafeG
      ((finalEntities config (.mk d (c0 :: rest))).map (fun e => (e.x, e.y, e.w, e.h))) :=
    List.pairwise_map.2 (hpair0.imp (fun h => Rx_safe h))
  have hperm : List.Perm
      ((blocksOf config (organizeChildrenMosaic config (.mk d (c0 :: rest)))).map
        (fun b => (b.x, b.y, b.w, b.h)))
      ((finalEntities config (.mk d (c0 :: rest))).map (fun e => (e.x, e.y, e.w, e.h))) := by
    rw [hgeom, hE]
    simp only [List.map_append, List.map_cons]
    exact List.perm_middle.symm
  have hpair2 := (hperm.pairwise_iff (fun h => SafeG_symm h)).2 hpair1
  exact pairMarkers_h_le _ (List.pairwise_map.1 hpair2)

@[simp] theorem childrenAreaSumOf_nil (config : TechNodeConfig) :
    childrenAreaSumOf config [] = 0 := rfl

@[simp] theorem totalContentAreaOf_nil (config : TechNodeConfig) (d : NodeData) :
    totalContentAreaOf config d [] = localAreaOf config d := by
  simp [totalContentAreaOf, childrenAreaSumOf]

@[simp] theorem maxContentXOf_nil (config : TechNodeConfig) (d : NodeData) :
    maxContentXOf config d [] = jsOr d.internalX 0 + localWOf config d := rfl

@[simp] theorem maxContentYOf_nil (config : TechNodeConfig) (d : NodeData) :
    maxContentYOf config d [] = jsOr d.internalY 0 + localHOf config d := rfl

theorem childrenAreaSumOf_singleton (config : TechNodeConfig) (c : ModuleNode) :
    childrenAreaSumOf config [c] =
      (calculatePhysicalSize config c).w * (calculatePhysicalSize config c).h := by
  simp [childrenAreaSumOf]

theorem maxContentXOf_singleton (config : TechNodeConfig) (d : NodeData) (c : ModuleNode) :
    maxContentXOf config d [c] =
      max (jsOr d.internalX 0 + localWOf config d)
        (jsOr c.x 0 + (calculatePhysicalSize config c).w) := rfl

theorem maxContentYOf_singleton (config : TechNodeConfig) (d : NodeData) (c : ModuleNode) :
    maxContentYOf config d [c] =
      max (jsOr d.internalY 0 + localHOf config d)
        (jsOr c.y 0 + (calculatePhysicalSize config c).h) := rfl

/-- The all-ones technology config used by the concrete instances below. -/
def cfg1 : TechNodeConfig :=
  { name := "unit", dffArea := 1, gateArea := 1, sramAreaPerBit := 1, utilization := 1 }

/-- A leaf holding 832 logic gates with a 52:16 local block: under `cfg1`
its computed footprint is exactly 100 × 100. -/
def leaf832Data (i : String) (cx cy : ℝ) : NodeData :=
  { id := i, name := i, registers := 0, memoryBits := 0, logicGates := 832,
    x := cx, y := cy, internalX := 0, internalY := 0,
    aspectRatio := 1, internalAspectRatio := 13/4, isRatioLinked := false }

/-- The 832-gate leaf as a childless node. -/
def leaf832 (i : String) (cx cy : ℝ) : ModuleNode := .mk (leaf832Data i cx cy) []

theorem leaf832_localArea (i : String) (cx cy : ℝ) :
    localAreaOf cfg1 (leaf832Data i cx cy) = 832 := by
  norm_num [localAreaOf, rawLocalAreaOf, regAreaOf, memAreaOf, logicAreaOf, jsOr,
    leaf832Data, cfg1]

theorem leaf832_localH (i : String) (cx cy : ℝ) :
    localHOf cfg1 (leaf832Data i cx cy) = 16 := by
  rw [localHOf, leaf832_localArea]
  have h1 : effARData (leaf832Data i cx cy) = 13/4 := by
    norm_num [effARData, leaf832Data, jsOr]
  rw [h1, show (832:ℝ) / (13/4) = 16^2 by norm_num, Real.sqrt_sq (by norm_num)]

theorem leaf832_localW (i : String) (cx cy : ℝ) :
    localWOf cfg1 (leaf832Data i cx cy) = 52 := by
  rw [localWOf, leaf832_localH]
  have h1 : effARData (leaf832Data i cx cy) = 13/4 := by
    norm_num [effARData, leaf832Data, jsOr]
  rw [h1]
  norm_num

theorem leaf832_size (i : String) (cx cy : ℝ) :
    (calculatePhysicalSize cfg1 (leaf832 i cx cy)).w = 100 ∧
    (calculatePhysicalSize cfg1 (leaf832 i cx cy)).h = 100 := by
  rw [leaf832, calc_w_mk, calc_h_mk]
  have hW : WminOf cfg1 (leaf832Data i cx cy) [] = 100 := by
    rw [WminOf, maxContentXOf_nil, leaf832_localW]
    norm_num [leaf832Data, jsOr, GLOBAL_MARGIN]
  have hH : HminOf cfg1 (leaf832Data i cx cy) [] = 100 := by
    rw [HminOf, maxContentYOf_nil, leaf832_localH]
    norm_num [leaf832Data, jsOr, GLOBAL_MARGIN, GLOBAL_HEADER]
  have hT : totalContentAreaOf cfg1 (leaf832Data i cx cy) [] = 832 := by
    rw [totalContentAreaOf_nil, leaf832_localArea]
  have hratio : ratioOf (leaf832Data i cx cy) = 1 := by
    norm_num [ratioOf, leaf832Data, jsOr]
  have hIH : idealHOf cfg1 (leaf832Data i cx cy) [] = Real.sqrt 832 := by
    rw [idealHOf, hT, hratio, div_one]
  have hIW : idealWOf cfg1 (leaf832Data i cx cy) [] = Real.sqrt 832 := by
    rw [idealWOf, hIH, hratio, mul_one]
  have hle : Real.sqrt 832 ≤ 100 := by
    rw [Real.sqrt_le_left (by norm_num : (0:ℝ) ≤ 100)]
    norm_num
  rw [hIW, hIH, hW, hH]
  constructor <;> exact max_eq_right hle

/-- Evaluation of the whole sort/sweep pipeline for the common two-entity
scenario: local block at the origin, one child at `(cx, 0)` with `0 < cx`,
x-spans overlapping by at most 1 (so the vertical pass moves nothing) and
y-spans overlapping by more than 1 (so the horizontal pass parks the child
against the local block's right edge plus the gap). -/
theorem finalEntities_two_push (config : TechNodeConfig) (n cOrig : ModuleNode)
    (lw lh cx cw ch : ℝ) (cid : String)
    (hM : mosaicEntities config n =
      [⟨true, "internal", 0, 0, lw, lh, n⟩, ⟨false, cid, cx, 0, cw, ch, cOrig⟩])
    (hcx : 0 < cx) (hlw : 0 ≤ lw)
    (hnoXov : min (cx + cw) lw - cx ≤ 1)
    (hyov : 1 < min ch lh) :
    finalEntities config n =
      [⟨true, "internal", 0, 0, lw, lh, n⟩,
       ⟨false, cid, lw + INTER_MODULE_GAP, 0, cw, ch, cOrig⟩] := by
  set L : Entity := ⟨true, "internal", 0, 0, lw, lh, n⟩ with hL
  set C : Entity := ⟨false, cid, cx, 0, cw, ch, cOrig⟩ with hC
  have hyx : byYX L C := Or.inr ⟨rfl, hcx.le⟩
  have hsort1 : List.insertionSort byYX (mosaicEntities config n) = [L, C] := by
    rw [hM]
    simp only [List.insertionSort, List.orderedInsert]
    rw [if_pos hyx]
  have hcondY : ¬ (1 < min (C.x + C.w) (L.x + L.w) - max C.x L.x) := by
    push_neg
    show min (cx + cw) (0 + lw) - max cx 0 ≤ 1
    rw [zero_add, max_eq_left hcx.le]
    exact hnoXov
  have hbY : bestYFor [L] C = 0 := by
    have h0 : bestYFor [L] C =
        if 1 < min (C.x + C.w) (L.x + L.w) - max C.x L.x
        then max 0 (L.y + L.h + INTER_MODULE_GAP) else 0 := rfl
    rw [h0, if_neg hcondY]
  have hsweep1 : sweepYGo [] [L, C] = [L, C] := by
    have h0 : sweepYGo [] [L, C] = [L, { C with y := bestYFor [L] C }] := rfl
    rw [h0, hbY]
  have hxy : byXY L C := Or.inl hcx
  have hsort2 : List.insertionSort byXY [L, C] = [L, C] := by
    simp only [List.insertionSort, List.orderedInsert]
    rw [if_pos hxy]
  have hcondX : 1 < min (C.y + C.h) (L.y + L.h) - max C.y L.y := by
    show 1 < min (0 + ch) (0 + lh) - max 0 0
    simpa using hyov
  have hbX : bestXFor [L] C = lw + INTER_MODULE_GAP := by
    have h0 : bestXFor [L] C =
        if 1 < min (C.y + C.h) (L.y + L.h) - max C.y L.y
        then max 0 (L.x + L.w + INTER_MODULE_GAP) else 0 := rfl
    rw [h0, if_pos hcondX]
    show max 0 (0 + lw + INTER_MODULE_GAP) = lw + INTER_MODULE_GAP
    rw [zero_add, max_eq_right]
    have : (0:ℝ) ≤ INTER_MODULE_GAP := by norm_num [INTER_MODULE_GAP]
    linarith
  have hsweep2 : sweepXGo [] [L, C] =
      [L, ⟨false, cid, lw + INTER_MODULE_GAP, 0, cw, ch, cOrig⟩] := by
    have h0 : sweepXGo [] [L, C] = [L, { C with x := bestXFor [L] C }] := rfl
    rw [h0, hbX]
  rw [finalEntities, hsort1, hsweep1, hsort2, hsweep2]

/-- The 832-gate leaf placed at `(116, 0)`, used as the child of the
counterexample node. -/
def aNode : ModuleNode := leaf832 "a" 116 0

/-- A ratio-linked node holding 10000 registers (a 100 × 100 local block
under `cfg1` while its aspect ratio is 1) with one 100 × 100 child parked
at `(116, 0)`. -/
def NLData : NodeData :=
  { id := "N", name := "N", registers := 10000, memoryBits := 0, logicGates := 0,
    x := 0, y := 0, internalX := 0, internalY := 0,
    aspectRatio := 1, internalAspectRatio := 1, isRatioLinked := true }

/-- The ratio-linked counterexample node. -/
def NL : ModuleNode := .mk NLData [aNode]

theorem NL_localArea : localAreaOf cfg1 NLData = 10000 := by
  norm_num [localAreaOf, rawLocalAreaOf, regAreaOf, memAreaOf, logicAreaOf, jsOr, NLData, cfg1]

theorem NL_mosaic : mosaicEntities cfg1 NL =
    [⟨true, "internal", 0, 0, 100, 100, NL⟩, ⟨false, "a", 116, 0, 100, 100, aNode⟩] := by
  have hEff : effectiveInternalAR NL = 1 := by
    simp [NL, effectiveInternalAR, effARData, NLData]
  have hLA : (calculatePhysicalSize cfg1 NL).stats.localArea = 10000 := by
    rw [NL, calc_stats_localArea, NL_localArea]
  have hH : Real.sqrt ((calculatePhysicalSize cfg1 NL).stats.localArea / 1) = 100 := by
    rw [hLA, div_one, show (10000:ℝ) = 100^2 by norm_num,
      Real.sqrt_sq (by norm_num : (0:ℝ) ≤ 100)]
  have hw : (calculatePhysicalSize cfg1 aNode).w = 100 := (leaf832_size "a" 116 0).1
  have hhh : (calculatePhysicalSize cfg1 aNode).h = 100 := (leaf832_size "a" 116 0).2
  have hch : NL.children = [aNode] := rfl
  have hid : aNode.id = "a" := rfl
  have hx : jsOr aNode.x 0 = 116 := by rw [jsOr_self_zero]; rfl
  have hy : jsOr aNode.y 0 = 0 := by rw [jsOr_self_zero]; rfl
  have hix : jsOr NL.internalX 0 = 0 := by rw [jsOr_self_zero]; rfl
  have hiy : jsOr NL.internalY 0 = 0 := by rw [jsOr_self_zero]; rfl
  simp only [mosaicEntities, hEff, mul_one, hH]
  simp only [hch, List.map_cons, List.map_nil, hix, hiy, hid, hx, hy, hw, hhh]

theorem NL_final : finalEntities cfg1 NL =
    [⟨true, "internal", 0, 0, 100, 100, NL⟩, ⟨false, "a", 116, 0, 100, 100, aNode⟩] := by
  have h := finalEntities_two_push cfg1 NL aNode 100 100 116 100 100 "a" NL_mosaic
    (by norm_num) (by norm_num) (by norm_num) (by norm_num)
  rw [h]
  norm_num [INTER_MODULE_GAP]

theorem toFixed2_264_184 : toFixed2 (264 / 184) = 143 / 100 := by
  rw [toFixed2]
  have h1 : ((264:ℝ) / 184) * 100 = 6600 / 46 := by norm_num
  have h2 : round ((6600 : ℝ) / 46) = 143 := by
    rw [round_eq]
    have : (6600:ℝ) / 46 + 1 / 2 = 6623 / 46 := by norm_num
    rw [this]
    rw [Int.floor_eq_iff]
    constructor <;> norm_num
  rw [h1, h2]
  norm_num

theorem NL_org : organizeChildrenMosaic cfg1 NL =
    .mk
      { NLData with
        internalX := 0, internalY := 0, aspectRatio := 143/100,
        internalAspectRatio := 143/100 }
      [aNode.withXY 116 0] := by
  show organizeChildrenMosaic cfg1 (.mk NLData [aNode]) = _
  have hfe : finalEntities cfg1 (.mk NLData [aNode]) =
      [⟨true, "internal", 0, 0, 100, 100, NL⟩, ⟨false, "a", 116, 0, 100, 100, aNode⟩] :=
    NL_final
  have hw : (calculatePhysicalSize cfg1 (aNode.withXY 116 0)).w = 100 := by
    rw [calc_withXY]
    exact (leaf832_size "a" 116 0).1
  have hhh : (calculatePhysicalSize cfg1 (aNode.withXY 116 0)).h = 100 := by
    rw [calc_withXY]
    exact (leaf832_size "a" 116 0).2
  simp only [organizeChildrenMosaic]
  rw [hfe]
  simp only [List.find?_cons_of_pos _ (by rfl : (fun e : Entity => e.isLocal)
      ⟨true, "internal", 0, 0, 100, 100, NL⟩ = true),
    Option.getD_some, List.filter, List.map_cons, List.map_nil, List.foldl,
    ModuleNode.withXY_x, ModuleNode.withXY_y, hw, hhh]
  norm_num [GLOBAL_MARGIN, GLOBAL_HEADER, NLData]
  rw [show (33:ℝ)/23 = 264/184 by norm_num]
  exact toFixed2_264_184

/-- C1 counterexample core: after compaction of the ratio-linked node `NL`,
the Overlap Detector still reports at least one overlap (the updated aspect
ratio widens the local block to `√14300 ≈ 119.6 > 116`, back into the child
parked at `x = 116`). -/
theorem NL_overlaps_nonempty :
    checkOverlapsInModule cfg1 (organizeChildrenMosaic cfg1 NL) ≠ [] := by
  rw [NL_org]
  have hHpos : 0 < Real.sqrt (10000 / (143/100)) :=
    Real.sqrt_pos.2 (by norm_num)
  have hH100 : Real.sqrt (10000 / (143/100)) ≤ 100 := by
    rw [Real.sqrt_le_left (by norm_num : (0:ℝ) ≤ 100)]
    norm_num
  have hH83 : (83:ℝ) < Real.sqrt (10000 / (143/100)) := by
    rw [Real.lt_sqrt (by norm_num : (0:ℝ) ≤ 83)]
    norm_num
  set H : ℝ := Real.sqrt (10000 / (143/100)) with hHdef
  set W : ℝ := H * (143/100) with hWdef
  have hW116 : 116 < W := by
    have := mul_lt_mul_of_pos_right hH83 (by norm_num : (0:ℝ) < 143/100)
    rw [hWdef]
    linarith
  have hW216 : W ≤ 216 := by
    have := mul_le_mul_of_nonneg_right hH100 (by norm_num : (0:ℝ) ≤ 143/100)
    rw [hWdef]
    linarith
  have hLA : (calculatePhysicalSize cfg1 (ModuleNode.mk
      { NLData with
        internalX := 0, internalY := 0, aspectRatio := 143/100,
        internalAspectRatio := 143/100 } [aNode.withXY 116 0])).stats.localArea = 10000 := by
    rw [calc_stats_localArea]
    norm_num [localAreaOf, rawLocalAreaOf, regAreaOf, memAreaOf, logicAreaOf, jsOr, NLData, cfg1]
  have hw : (calculatePhysicalSize cfg1 (aNode.withXY 116 0)).w = 100 := by
    rw [calc_withXY]
    exact (leaf832_size "a" 116 0).1
  have hhh : (calculatePhysicalSize cfg1 (aNode.withXY 116 0)).h = 100 := by
    rw [calc_withXY]
    exact (leaf832_size "a" 116 0).2
  have heff : effectiveInternalAR (ModuleNode.mk
      { NLData with
        internalX := 0, internalY := 0, aspectRatio := 143/100,
        internalAspectRatio := 143/100 } [aNode.withXY 116 0]) = 143/100 := by
    simp [effectiveInternalAR, effARData, NLData]
  have hblocks : blocksOf cfg1 (ModuleNode.mk
      { NLData with
        internalX := 0, internalY := 0, aspectRatio := 143/100,
        internalAspectRatio := 143/100 } [aNode.withXY 116 0]) =
      [⟨"internal", "[Local Logic]", 0, 0, W, H⟩, ⟨"a", "a", 116, 0, 100, 100⟩] := by
    have hid : (aNode.withXY 116 0).id = "a" := rfl
    have hnm : (aNode.withXY 116 0).name = "a" := rfl
    have hx : jsOr (aNode.withXY 116 0).x 0 = 116 := by rw [jsOr_self_zero]; rfl
    have hy : jsOr (aNode.withXY 116 0).y 0 = 0 := by rw [jsOr_self_zero]; rfl
    simp only [blocksOf, hLA, heff, ModuleNode.children_mk, List.map_cons, List.map_nil,
      ModuleNode.internalX_mk, ModuleNode.internalY_mk, hid, hnm, hx, hy, hw, hhh]
    norm_num [NLData, hHdef, hWdef]
  rw [checkOverlapsInModule, hblocks, pairMarkers, pairMarkers, pairMarkers]
  simp only [List.filterMap_cons, List.filterMap_nil]
  have hcond : 0 < max 0 (min ((0:ℝ) + W) (116 + 100) - max 0 116) ∧
      0 < max 0 (min ((0:ℝ) + H) (0 + 100) - max 0 0) := by
    constructor
    · have h1 : min ((0:ℝ) + W) (116 + 100) = W := by
        rw [zero_add]
        exact min_eq_left (by linarith)
      rw [h1]
      have : (0:ℝ) < W - max 0 116 := by
        rw [max_eq_right (by norm_num : (0:ℝ) ≤ 116)]
        linarith
      exact lt_of_lt_of_le this (le_max_right _ _)
    · have h1 : min ((0:ℝ) + H) (0 + 100) = H := by
        rw [zero_add, zero_add]
        exact min_eq_left (by linarith)
      rw [h1]
      have : (0:ℝ) < H - max 0 0 := by
        simpa using hHpos
      exact lt_of_lt_of_le this (le_max_right _ _)
  have hmk : ∃ m, mkMarker ⟨"internal", "[Local Logic]", 0, 0, W, H⟩
      ⟨"a", "a", 116, 0, 100, 100⟩ = some m := by
    simp only [mkMarker]
    rw [if_pos hcond]
    exact ⟨_, rfl⟩
  obtain ⟨m, hm⟩ := hmk
  rw [hm]
  simp

theorem zero_leaf_helpers (config : TechNodeConfig) (d : NodeData)
    (hr : d.registers = 0) (hm : d.memoryBits = 0) (hg : d.logicGates = 0) :
    localAreaOf config d = 0 ∧ localHOf config d = 0 ∧ localWOf config d = 0 := by
  have hA : localAreaOf config d = 0 := by
    rw [localAreaOf, rawLocalAreaOf, regAreaOf, memAreaOf, logicAreaOf, hr, hm, hg,
      jsOr_zero_left]
    ring_nf
  have hH : localHOf config d = 0 := by
    rw [localHOf, hA, zero_div, Real.sqrt_zero]
  exact ⟨hA, hH, by rw [localWOf, hH, zero_mul]⟩

/-- An all-zero childless node computes to the bare margin/header envelope
48 × 84, not to 0 × 0. -/
theorem zero_leaf_calc (config : TechNodeConfig) (d : NodeData)
    (hr : d.registers = 0) (hm : d.memoryBits = 0) (hg : d.logicGates = 0)
    (hx : d.internalX = 0) (hy : d.internalY = 0) :
    (calculatePhysicalSize config (.mk d [])).w = 48 ∧
    (calculatePhysicalSize config (.mk d [])).h = 84 := by
  obtain ⟨hA, hH, hW⟩ := zero_leaf_helpers config d hr hm hg
  have hT : totalContentAreaOf config d [] = 0 := by
    rw [totalContentAreaOf_nil, hA]
  have hIH : idealHOf config d [] = 0 := by
    rw [idealHOf, hT, zero_div, Real.sqrt_zero]
  have hIW : idealWOf config d [] = 0 := by
    rw [idealWOf, hIH, zero_mul]
  have hWm : WminOf config d [] = 48 := by
    rw [WminOf, maxContentXOf_nil, hW, hx, jsOr_zero_left]
    norm_num [GLOBAL_MARGIN]
  have hHm : HminOf config d [] = 84 := by
    rw [HminOf, maxContentYOf_nil, hH, hy, jsOr_zero_left]
    norm_num [GLOBAL_MARGIN, GLOBAL_HEADER]
  rw [calc_w_mk, calc_h_mk, hIH, hIW, hWm, hHm]
  constructor <;> [exact max_eq_right (by norm_num); exact max_eq_right (by norm_num)]

/-- An all-zero leaf (48 × 84 footprint) parked at `(116, 0)`. -/
def zData : NodeData :=
  { id := "z", name := "z", registers := 0, memoryBits := 0, logicGates := 0,
    x := 116, y := 0, internalX := 0, internalY := 0,
    aspectRatio := 1, internalAspectRatio := 1, isRatioLinked := false }

/-- The zero leaf as a node. -/
def zNode : ModuleNode := .mk zData []

theorem zNode_size : (calculatePhysicalSize cfg1 zNode).w = 48 ∧
    (calculatePhysicalSize cfg1 zNode).h = 84 :=
  zero_leaf_calc cfg1 zData rfl rfl rfl rfl rfl

/-- The ratio-linked register block with the zero leaf as its only child:
the second compactor application moves the child again. -/
def N5 : ModuleNode := .mk NLData [zNode]

theorem N5_mosaic : mosaicEntities cfg1 N5 =
    [⟨true, "internal", 0, 0, 100, 100, N5⟩, ⟨false, "z", 116, 0, 48, 84, zNode⟩] := by
  have hEff : effectiveInternalAR N5 = 1 := by
    simp [N5, effectiveInternalAR, effARData, NLData]
  have hLA : (calculatePhysicalSize cfg1 N5).stats.localArea = 10000 := by
    rw [N5, calc_stats_localArea, NL_localArea]
  have hH : Real.sqrt ((calculatePhysicalSize cfg1 N5).stats.localArea / 1) = 100 := by
    rw [hLA, div_one, show (10000:ℝ) = 100^2 by norm_num,
      Real.sqrt_sq (by norm_num : (0:ℝ) ≤ 100)]
  have hw : (calculatePhysicalSize cfg1 zNode).w = 48 := zNode_size.1
  have hhh : (calculatePhysicalSize cfg1 zNode).h = 84 := zNode_size.2
  have hch : N5.children = [zNode] := rfl
  have hid : zNode.id = "z" := rfl
  have hx : jsOr zNode.x 0 = 116 := by rw [jsOr_self_zero]; rfl
  have hy : jsOr zNode.y 0 = 0 := by rw [jsOr_self_zero]; rfl
  have hix : jsOr N5.internalX 0 = 0 := by rw [jsOr_self_zero]; rfl
  have hiy : jsOr N5.internalY 0 = 0 := by rw [jsOr_self_zero]; rfl
  simp only [mosaicEntities, hEff, mul_one, hH]
  simp only [hch, List.map_cons, List.map_nil, hix, hiy, hid, hx, hy, hw, hhh]

theorem N5_final : finalEntities cfg1 N5 =
    [⟨true, "internal", 0, 0, 100, 100, N5⟩, ⟨false, "z", 116, 0, 48, 84, zNode⟩] := by
  have h := finalEntities_two_push cfg1 N5 zNode 100 100 116 48 84 "z" N5_mosaic
    (by norm_num) (by norm_num) (by norm_num) (by norm_num)
  rw [h]
  norm_num [INTER_MODULE_GAP]

theorem toFixed2_212_184 : toFixed2 (212 / 184) = 23 / 20 := by
  rw [toFixed2]
  have h1 : ((212:ℝ) / 184) * 100 = 2650 / 23 := by norm_num
  have h2 : round ((2650 : ℝ) / 23) = 115 := by
    rw [round_eq]
    have : (2650:ℝ) / 23 + 1 / 2 = 5323 / 46 := by norm_num
    rw [this, Int.floor_eq_iff]
    constructor <;> norm_num
  rw [h1, h2]
  norm_num

theorem N5_org : organizeChildrenMosaic cfg1 N5 =
    .mk
      { NLData with
        internalX := 0, internalY := 0, aspectRatio := 23/20,
        internalAspectRatio := 23/20 }
      [zNode.withXY 116 0] := by
  show organizeChildrenMosaic cfg1 (.mk NLData [zNode]) = _
  have hfe : finalEntities cfg1 (.mk NLData [zNode]) =
      [⟨true, "internal", 0, 0, 100, 100, N5⟩, ⟨false, "z", 116, 0, 48, 84, zNode⟩] :=
    N5_final
  have hw : (calculatePhysicalSize cfg1 (zNode.withXY 116 0)).w = 48 := by
    rw [calc_withXY]
    exact zNode_size.1
  have hhh : (calculatePhysicalSize cfg1 (zNode.withXY 116 0)).h = 84 := by
    rw [calc_withXY]
    exact zNode_size.2
  simp only [organizeChildrenMosaic]
  rw [hfe]
  simp only [List.find?_cons_of_pos _ (by rfl : (fun e : Entity => e.isLocal)
      ⟨true, "internal", 0, 0, 100, 100, N5⟩ = true),
    Option.getD_some, List.filter, List.map_cons, List.map_nil, List.foldl,
    ModuleNode.withXY_x, ModuleNode.withXY_y, hw, hhh]
  norm_num [GLOBAL_MARGIN, GLOBAL_HEADER, NLData]
  rw [show (53:ℝ)/46 = 212/184 by norm_num]
  exact toFixed2_212_184

/-- The compacted `N5` (one compactor pass applied). -/
def R5 : ModuleNode :=
  .mk
    { NLData with
      internalX := 0, internalY := 0, aspectRatio := 23/20,
      internalAspectRatio := 23/20 }
    [zNode.withXY 116 0]

theorem R5_mosaic : mosaicEntities cfg1 R5 =
    [⟨true, "internal", 0, 0, Real.sqrt (10000 / (23/20)) * (23/20),
      Real.sqrt (10000 / (23/20)), R5⟩,
     ⟨false, "z", 116, 0, 48, 84, zNode.withXY 116 0⟩] := by
  have hEff : effectiveInternalAR R5 = 23/20 := by
    simp [R5, effectiveInternalAR, effARData, NLData]
  have hLA : (calculatePhysicalSize cfg1 R5).stats.localArea = 10000 := by
    rw [R5, calc_stats_localArea]
    norm_num [localAreaOf, rawLocalAreaOf, regAreaOf, memAreaOf, logicAreaOf, jsOr, NLData, cfg1]
  have hH : Real.sqrt ((calculatePhysicalSize cfg1 R5).stats.localArea / (23/20)) =
      Real.sqrt (10000 / (23/20)) := by
    rw [hLA]
  have hw : (calculatePhysicalSize cfg1 (zNode.withXY 116 0)).w = 48 := by
    rw [calc_withXY]
    exact zNode_size.1
  have hhh : (calculatePhysicalSize cfg1 (zNode.withXY 116 0)).h = 84 := by
    rw [calc_withXY]
    exact zNode_size.2
  have hch : R5.children = [zNode.withXY 116 0] := rfl
  have hid : (zNode.withXY 116 0).id = "z" := rfl
  have hx : jsOr (zNode.withXY 116 0).x 0 = 116 := by rw [jsOr_self_zero]; rfl
  have hy : jsOr (zNode.withXY 116 0).y 0 = 0 := by rw [jsOr_self_zero]; rfl
  have hix : jsOr R5.internalX 0 = 0 := by rw [jsOr_self_zero]; rfl
  have hiy : jsOr R5.internalY 0 = 0 := by rw [jsOr_self_zero]; rfl
  simp only [mosaicEntities, hEff, hH]
  simp only [hch, List.map_cons, List.map_nil, hix, hiy, hid, hx, hy, hw, hhh]

theorem sqrt_R5_bounds :
    84 ≤ Real.sqrt (10000 / (23/20)) ∧ Real.sqrt (10000 / (23/20)) ≤ 94 := by
  constructor
  · rw [Real.le_sqrt (by norm_num : (0:ℝ) ≤ 84) (by norm_num : (0:ℝ) ≤ 10000 / (23/20))]
    norm_num
  · rw [Real.sqrt_le_left (by norm_num : (0:ℝ) ≤ 94)]
    norm_num

theorem R5_final : finalEntities cfg1 R5 =
    [⟨true, "internal", 0, 0, Real.sqrt (10000 / (23/20)) * (23/20),
      Real.sqrt (10000 / (23/20)), R5⟩,
     ⟨false, "z", Real.sqrt (10000 / (23/20)) * (23/20) + INTER_MODULE_GAP, 0, 48, 84,
      zNode.withXY 116 0⟩] := by
  obtain ⟨hlo, hhi⟩ := sqrt_R5_bounds
  refine finalEntities_two_push cfg1 R5 (zNode.withXY 116 0)
    (Real.sqrt (10000 / (23/20)) * (23/20)) (Real.sqrt (10000 / (23/20)))
    116 48 84 "z" R5_mosaic (by norm_num) (by positivity) ?_ ?_
  · have hW : Real.sqrt (10000 / (23/20)) * (23/20) ≤ 94 * (23/20) :=
      mul_le_mul_of_nonneg_right hhi (by norm_num)
    have : min ((116:ℝ) + 48) (Real.sqrt (10000 / (23/20)) * (23/20)) ≤
        Real.sqrt (10000 / (23/20)) * (23/20) := min_le_right _ _
    linarith
  · rw [lt_min_iff]
    refine ⟨by norm_num, ?_⟩
    linarith

/-- The second compactor application moves the child of `R5` to
`√11500 + 16 ≈ 123.2 ≠ 116`: compaction is not idempotent. -/
theorem org_R5_children : (organizeChildrenMosaic cfg1 R5).children =
    [(zNode.withXY 116 0).withXY (Real.sqrt (10000 / (23/20)) * (23/20) + INTER_MODULE_GAP) 0] := by
  have h := org_internals_of_split cfg1
    { NLData with
      internalX := 0, internalY := 0, aspectRatio := 23/20,
      internalAspectRatio := 23/20 }
    (zNode.withXY 116 0) [] []
    ⟨true, "internal", 0, 0, Real.sqrt (10000 / (23/20)) * (23/20),
      Real.sqrt (10000 / (23/20)), R5⟩
    [⟨false, "z", Real.sqrt (10000 / (23/20)) * (23/20) + INTER_MODULE_GAP, 0, 48, 84,
      zNode.withXY 116 0⟩]
    R5_final (by simp) rfl
    (by
      intro b hb
      rcases List.mem_singleton.1 hb with rfl
      rfl)
  exact h.2.2

theorem org_org_N5_ne : organizeChildrenMosaic cfg1 (organizeChildrenMosaic cfg1 N5) ≠
    organizeChildrenMosaic cfg1 N5 := by
  rw [N5_org]
  show organizeChildrenMosaic cfg1 R5 ≠ R5
  intro hEq
  have h1 := org_R5_children
  rw [hEq] at h1
  have h2 : R5.children = [zNode.withXY 116 0] := rfl
  rw [h2] at h1
  have h3 := congrArg (fun l => l.map ModuleNode.x) h1
  simp only [List.map_cons, List.map_nil, ModuleNode.withXY_x] at h3
  have h4 : (116:ℝ) = Real.sqrt (10000 / (23/20)) * (23/20) + INTER_MODULE_GAP := by
    simpa using h3
  rw [INTER_MODULE_GAP] at h4
  have h5 : Real.sqrt (10000 / (23/20)) = 2000/23 := by
    have h : Real.sqrt (10000 / (23/20)) * (23/20) = 100 := by linarith
    field_simp at h
    linarith
  have h6 := congrArg (fun t : ℝ => t^2) h5
  simp only [] at h6
  rw [Real.sq_sqrt (by norm_num : (0:ℝ) ≤ 10000/(23/20))] at h6
  norm_num at h6

/-- C2 (amended): a node with all resource counts zero, no children and a
local block at the origin computes to the margin/header envelope
`48 × 84` (`2·GLOBAL_MARGIN` by `2·GLOBAL_MARGIN + GLOBAL_HEADER`), not to
`0 × 0`; its ideal dimensions are 0 and no division produces a `NaN` in the
width/height path (the utilization hypothesis keeps `0/0` out of the
JavaScript original).  The original claim's "width and height both 0" is
false (see the counterexample). -/
theorem C2_zero_content_envelope (config : TechNodeConfig) (d : NodeData)
    (hu : 0 < config.utilization)
    (hr : d.registers = 0) (hm : d.memoryBits = 0) (hg : d.logicGates = 0)
    (hx : d.internalX = 0) (hy : d.internalY = 0) :
    (calculatePhysicalSize config (.mk d [])).w = 2 * GLOBAL_MARGIN ∧
    (calculatePhysicalSize config (.mk d [])).h = 2 * GLOBAL_MARGIN + GLOBAL_HEADER ∧
    (calculatePhysicalSize config (.mk d [])).stats.idealWidth = 0 ∧
    (calculatePhysicalSize config (.mk d [])).stats.idealHeight = 0 := by
  obtain ⟨hA, hH, hW⟩ := zero_leaf_helpers config d hr hm hg
  have hT : totalContentAreaOf config d [] = 0 := by
    rw [totalContentAreaOf_nil, hA]
  have hIH : idealHOf config d [] = 0 := by
    rw [idealHOf, hT, zero_div, Real.sqrt_zero]
  have hIW : idealWOf config d [] = 0 := by
    rw [idealWOf, hIH, zero_mul]
  obtain ⟨hw48, hh84⟩ := zero_leaf_calc config d hr hm hg hx hy
  refine ⟨?_, ?_, ?_, ?_⟩
  · rw [hw48]
    norm_num [GLOBAL_MARGIN]
  · rw [hh84]
    norm_num [GLOBAL_MARGIN, GLOBAL_HEADER]
  · rw [calc_stats_idealWidth, hIW]
  · rw [calc_stats_idealHeight, hIH]

/-- C2 counterexample: the all-zero leaf `zNode` has `totalContentArea = 0`
yet `calculatePhysicalSize` returns width 48 and height 84, not 0. -/
theorem C2_counterexample :
    totalContentAreaOf cfg1 zData [] = 0 ∧
    (calculatePhysicalSize cfg1 zNode).w = 48 ∧
    (calculatePhysicalSize cfg1 zNode).h = 84 ∧
    ((48:ℝ) ≠ 0 ∧ (84:ℝ) ≠ 0) := by
  refine ⟨?_, zNode_size.1, zNode_size.2, by norm_num, by norm_num⟩
  rw [totalContentAreaOf_nil]
  exact (zero_leaf_helpers cfg1 zData rfl rfl rfl).1

/-- C2 witness: the theorem applied to the concrete all-zero leaf. -/
theorem C2_witness : 0 < cfg1.utilization ∧
    ((calculatePhysicalSize cfg1 (.mk zData [])).w = 2 * GLOBAL_MARGIN ∧
     (calculatePhysicalSize cfg1 (.mk zData [])).h = 2 * GLOBAL_MARGIN + GLOBAL_HEADER ∧
     (calculatePhysicalSize cfg1 (.mk zData [])).stats.idealWidth = 0 ∧
     (calculatePhysicalSize cfg1 (.mk zData [])).stats.idealHeight = 0) :=
  ⟨by norm_num [cfg1],
   C2_zero_content_envelope cfg1 zData (by norm_num [cfg1]) rfl rfl rfl rfl rfl⟩

/-- C5 (amended): the Compactor is idempotent on childless nodes; on nodes
with children a second application can move children again (both for
ratio-linked nodes, whose local block is reshaped by the updated aspect
ratio, and in general through the interaction of the two sweep axes), so
the original unrestricted idempotence claim is false (see the
counterexample). -/
theorem C5_childless_idempotent (config : TechNodeConfig) (n : ModuleNode)
    (h : n.children = []) :
    organizeChildrenMosaic config (organizeChildrenMosaic config n) =
      organizeChildrenMosaic config n := by
  obtain ⟨d, cs⟩ := n
  rw [ModuleNode.children_mk] at h
  subst h
  rfl

/-- C5 counterexample: on the ratio-linked node `N5` (one child), applying
the Compactor twice differs from applying it once — the second pass moves
the child from `x = 116` to `x = √11500 + 16 ≈ 123.2`. -/
theorem C5_counterexample :
    organizeChildrenMosaic cfg1 (organizeChildrenMosaic cfg1 N5) ≠
      organizeChildrenMosaic cfg1 N5 ∧ N5.children ≠ [] :=
  ⟨org_org_N5_ne, by simp [N5]⟩

/-- C5 witness: idempotence at the concrete childless node `zNode`. -/
theorem C5_witness : zNode.children = [] ∧
    organizeChildrenMosaic cfg1 (organizeChildrenMosaic cfg1 zNode) =
      organizeChildrenMosaic cfg1 zNode :=
  ⟨rfl, C5_childless_idempotent cfg1 zNode rfl⟩

/-- C6 (amended): `calculatePhysicalSize` performs no validation of the
config: with `utilization < 0` and a positive raw resource area it simply
divides, producing a negative `localArea` (in JavaScript, `utilization = 0`
produces `Infinity`); nothing is rejected or clamped, so the original
claim's "rejects with a descriptive error (or clamps)" is false. -/
theorem C6_no_validation (config : TechNodeConfig) (d : NodeData) (cs : List ModuleNode)
    (hu : config.utilization < 0) (hraw : 0 < rawLocalAreaOf config d) :
    (calculatePhysicalSize config (.mk d cs)).stats.localArea < 0 := by
  rw [calc_stats_localArea, localAreaOf]
  exact div_neg_of_pos_of_neg hraw hu

/-- The invalid config with `utilization = -1`. -/
def cfgNeg : TechNodeConfig :=
  { name := "neg", dffArea := 1, gateArea := 1, sramAreaPerBit := 1, utilization := -1 }

/-- A one-register leaf. -/
def oneRegData : NodeData :=
  { id := "r", name := "r", registers := 1, memoryBits := 0, logicGates := 0,
    x := 0, y := 0, internalX := 0, internalY := 0,
    aspectRatio := 1, internalAspectRatio := 1, isRatioLinked := false }

/-- C6 counterexample: with `utilization = -1 ≤ 0` the Area Calculator
silently divides and returns `localArea = -1`: no rejection, no clamping. -/
theorem C6_counterexample : cfgNeg.utilization ≤ 0 ∧
    (calculatePhysicalSize cfgNeg (.mk oneRegData [])).stats.localArea = -1 := by
  refine ⟨by norm_num [cfgNeg], ?_⟩
  rw [calc_stats_localArea]
  norm_num [localAreaOf, rawLocalAreaOf, regAreaOf, memAreaOf, logicAreaOf, jsOr,
    oneRegData, cfgNeg]

/-- C6 witness: the theorem applied to the concrete invalid config. -/
theorem C6_witness : cfgNeg.utilization < 0 ∧ 0 < rawLocalAreaOf cfgNeg oneRegData ∧
    (calculatePhysicalSize cfgNeg (.mk oneRegData [])).stats.localArea < 0 := by
  have h1 : cfgNeg.utilization < 0 := by norm_num [cfgNeg]
  have h2 : 0 < rawLocalAreaOf cfgNeg oneRegData := by
    norm_num [rawLocalAreaOf, regAreaOf, memAreaOf, logicAreaOf, jsOr, oneRegData, cfgNeg]
  exact ⟨h1, h2, C6_no_validation cfgNeg oneRegData [] h1 h2⟩

/-- C10: the compacted node has nonnegative `internalX`/`internalY` and
every direct child has nonnegative `x`/`y` (both sweeps start from 0 and
only push positions up by nonnegative amounts). -/
theorem C10_compactor_nonneg_positions (config : TechNodeConfig) (n : ModuleNode)
    (h : n.children ≠ []) :
    0 ≤ (organizeChildrenMosaic config n).internalX ∧
    0 ≤ (organizeChildrenMosaic config n).internalY ∧
    ∀ c ∈ (organizeChildrenMosaic config n).children, 0 ≤ c.x ∧ 0 ≤ c.y := by
  obtain ⟨d, cs⟩ := n
  cases cs with
  | nil => simp at h
  | cons c0 rest =>
    obtain ⟨A, ℓ, B, hE, hl, hA, hB⟩ :=
      exists_local_split _ (finalEntities_countP config (.mk d (c0 :: rest)))
    obtain ⟨hiX, hiY, hch⟩ := org_internals_of_split config d c0 rest A ℓ B hE hA hl hB
    have hnn := finalEntities_nonneg config (.mk d (c0 :: rest))
    have hℓ : ℓ ∈ finalEntities config (.mk d (c0 :: rest)) := by
      rw [hE]
      exact List.mem_append_right _ (List.mem_cons_self ℓ B)
    refine ⟨by rw [hiX]; exact (hnn ℓ hℓ).1, by rw [hiY]; exact (hnn ℓ hℓ).2, ?_⟩
    rw [hch]
    intro c hc
    rcases List.mem_map.1 hc with ⟨e, he, rfl⟩
    have hemem : e ∈ finalEntities config (.mk d (c0 :: rest)) := by
      rw [hE]
      rcases List.mem_append.1 he with h' | h'
      · exact List.mem_append_left _ h'
      · exact List.mem_append_right _ (List.mem_cons_of_mem ℓ h')
    exact ⟨by rw [ModuleNode.withXY_x]; exact (hnn e hemem).1,
           by rw [ModuleNode.withXY_y]; exact (hnn e hemem).2⟩

/-- C10 witness: the theorem applied to the concrete one-child node `N5`. -/
theorem C10_witness : N5.children ≠ [] ∧
    (0 ≤ (organizeChildrenMosaic cfg1 N5).internalX ∧
     0 ≤ (organizeChildrenMosaic cfg1 N5).internalY ∧
     ∀ c ∈ (organizeChildrenMosaic cfg1 N5).children, 0 ≤ c.x ∧ 0 ≤ c.y) :=
  ⟨by simp [N5], C10_compactor_nonneg_positions cfg1 N5 (by simp [N5])⟩

/-- `calculatePhysicalSize` reads the node's own data only through its id,
name, the three resource counts, the two internal offsets, the target
ratio `aspectRatio || 1` and the effective internal aspect ratio. -/
theorem calc_congr (config : TechNodeConfig) (d' d : NodeData) (cs : List ModuleNode)
    (hid : d'.id = d.id) (hnm : d'.name = d.name)
    (hreg : d'.registers = d.registers) (hmem : d'.memoryBits = d.memoryBits)
    (hgat : d'.logicGates = d.logicGates)
    (hiX : d'.internalX = d.internalX) (hiY : d'.internalY = d.internalY)
    (har : ratioOf d' = ratioOf d) (heff : effARData d' = effARData d) :
    calculatePhysicalSize config (.mk d' cs) = calculatePhysicalSize config (.mk d cs) := by
  have h1 : regAreaOf config d' = regAreaOf config d := by
    rw [regAreaOf, regAreaOf, hreg]
  have h2 : memAreaOf config d' = memAreaOf config d := by
    rw [memAreaOf, memAreaOf, hmem]
  have h3 : logicAreaOf config d' = logicAreaOf config d := by
    rw [logicAreaOf, logicAreaOf, hgat]
  have h4 : rawLocalAreaOf config d' = rawLocalAreaOf config d := by
    rw [rawLocalAreaOf, rawLocalAreaOf, h1, h2, h3]
  have h5 : localAreaOf config d' = localAreaOf config d := by
    rw [localAreaOf, localAreaOf, h4]
  have h6 : totalContentAreaOf config d' cs = totalContentAreaOf config d cs := by
    rw [totalContentAreaOf, totalContentAreaOf, h5]
  have h7 : idealHOf config d' cs = idealHOf config d cs := by
    rw [idealHOf, idealHOf, h6, har]
  have h8 : idealWOf config d' cs = idealWOf config d cs := by
    rw [idealWOf, idealWOf, h7, har]
  have h9 : localHOf config d' = localHOf config d := by
    rw [localHOf, localHOf, h5, heff]
  have h10 : localWOf config d' = localWOf config d := by
    rw [localWOf, localWOf, h9, heff]
  have h11 : maxContentXOf config d' cs = maxContentXOf config d cs := by
    rw [maxContentXOf, maxContentXOf, hiX, h10]
  have h12 : maxContentYOf config d' cs = maxContentYOf config d cs := by
    rw [maxContentYOf, maxContentYOf, hiY, h9]
  have h13 : WminOf config d' cs = WminOf config d cs := by
    rw [WminOf, WminOf, h11]
  have h14 : HminOf config d' cs = HminOf config d cs := by
    rw [HminOf, HminOf, h12]
  have h15 : minRawRatioOf config d' cs = minRawRatioOf config d cs := by
    rw [minRawRatioOf, minRawRatioOf, h13, h6]
  have h16 : maxRawRatioOf config d' cs = maxRawRatioOf config d cs := by
    rw [maxRawRatioOf, maxRawRatioOf, h14, h6]
  rw [calculatePhysicalSize_mk, calculatePhysicalSize_mk, hid, hnm, h4, h5, h7, h8,
    h13, h14, h15, h16, h1, h2, h3]

/-- C9 (amended): on a ratio-linked node the stored `internalAspectRatio`
is ignored by the Area Calculator (changing it changes nothing), and an
`internalAspectRatio` of exactly 0 on an unlinked node falls back to 1 via
`|| 1.0`.  But a negative (or any nonzero "invalid") value is NOT replaced
by 1 — it is used as-is (see the counterexample), so the original claim's
"non-positive falls back to 1" is false. -/
theorem C9_internal_ratio_fallback (config : TechNodeConfig) (d : NodeData)
    (cs : List ModuleNode) (v : ℝ) :
    (d.isRatioLinked = true →
      calculatePhysicalSize config (.mk { d with internalAspectRatio := v } cs) =
        calculatePhysicalSize config (.mk d cs)) ∧
    (d.isRatioLinked = false → d.internalAspectRatio = 0 →
      calculatePhysicalSize config (.mk d cs) =
        calculatePhysicalSize config (.mk { d with internalAspectRatio := 1 } cs)) := by
  constructor
  · intro hl
    refine calc_congr config _ d cs rfl rfl rfl rfl rfl rfl rfl rfl ?_
    simp [effARData, hl]
  · intro hl h0
    refine calc_congr config d _ cs rfl rfl rfl rfl rfl rfl rfl rfl ?_
    simp [effARData, hl, h0, jsOr]

/-- The unlinked leaf with the invalid `internalAspectRatio = -1`. -/
def negIARData : NodeData :=
  { id := "q", name := "q", registers := 1, memoryBits := 0, logicGates := 0,
    x := 0, y := 0, internalX := 0, internalY := 0,
    aspectRatio := 1, internalAspectRatio := -1, isRatioLinked := false }

/-- C9 counterexample: for the unlinked leaf with `internalAspectRatio =
-1 < 0`, the computed height is 84 (`√(1/(-1))` collapses to 0, JavaScript
`NaN` folded through `max`), while substituting the claimed fallback value
1 gives height 85 — so a non-positive ratio is not treated as 1. -/
theorem C9_counterexample :
    negIARData.isRatioLinked = false ∧ negIARData.internalAspectRatio < 0 ∧
    (calculatePhysicalSize cfg1 (.mk negIARData [])).h = 84 ∧
    (calculatePhysicalSize cfg1 (.mk { negIARData with internalAspectRatio := 1 } [])).h = 85 ∧
    (84:ℝ) ≠ 85 := by
  have hloc : localAreaOf cfg1 negIARData = 1 := by
    norm_num [localAreaOf, rawLocalAreaOf, regAreaOf, memAreaOf, logicAreaOf, jsOr,
      negIARData, cfg1]
  have hratio : ratioOf negIARData = 1 := by
    norm_num [ratioOf, jsOr, negIARData]
  have hIH : idealHOf cfg1 negIARData [] = 1 := by
    rw [idealHOf, totalContentAreaOf_nil, hloc, hratio]
    norm_num
  refine ⟨rfl, by norm_num [negIARData], ?_, ?_, by norm_num⟩
  · have heff : effARData negIARData = -1 := by
      norm_num [effARData, jsOr, negIARData]
    have hH : localHOf cfg1 negIARData = 0 := by
      rw [localHOf, hloc, heff]
      exact Real.sqrt_eq_zero_of_nonpos (by norm_num)
    have hHmin : HminOf cfg1 negIARData [] = 84 := by
      rw [HminOf, maxContentYOf_nil, hH]
      norm_num [jsOr, negIARData, GLOBAL_MARGIN, GLOBAL_HEADER]
    rw [calc_h_mk, hIH, hHmin]
    norm_num
  · have hloc2 : localAreaOf cfg1 { negIARData with internalAspectRatio := 1 } = 1 := hloc
    have hratio2 : ratioOf { negIARData with internalAspectRatio := 1 } = 1 := hratio
    have heff2 : effARData { negIARData with internalAspectRatio := 1 } = 1 := by
      norm_num [effARData, jsOr, negIARData]
    have hIH2 : idealHOf cfg1 { negIARData with internalAspectRatio := 1 } [] = 1 := by
      rw [idealHOf, totalContentAreaOf_nil, hloc2, hratio2]
      norm_num
    have hH2 : localHOf cfg1 { negIARData with internalAspectRatio := 1 } = 1 := by
      rw [localHOf, hloc2, heff2]
      norm_num
    have hHmin2 : HminOf cfg1 { negIARData with internalAspectRatio := 1 } [] = 85 := by
      rw [HminOf, maxContentYOf_nil, hH2]
      norm_num [jsOr, negIARData, GLOBAL_MARGIN, GLOBAL_HEADER]
    rw [calc_h_mk, hIH2, hHmin2]
    norm_num

/-- Mapping a function that fixes every member is the identity. -/
theorem map_eq_self_of_eq {α : Type} {l : List α} {f : α → α}
    (h : ∀ c ∈ l, f c = c) : l.map f = l := by
  induction l with
  | nil => rfl
  | cons a t ih =>
    rw [List.map_cons, h a (List.mem_cons_self a t),
      ih (fun c hc => h c (List.mem_cons_of_mem a hc))]

/-- `reduceOption` of a map that sends every member to `some` of itself. -/
theorem reduceOption_map_eq_self {α : Type} {l : List α} {f : α → Option α}
    (h : ∀ c ∈ l, f c = some c) : (l.map f).reduceOption = l := by
  induction l with
  | nil => rfl
  | cons a t ih =>
    rw [List.map_cons, h a (List.mem_cons_self a t), List.reduceOption_cons_of_some,
      ih (fun c hc => h c (List.mem_cons_of_mem a hc))]

/-- If an id occurs nowhere in a tree, `updateNodeInTree`,
`deleteNodeInTree` and `addNodeToParent` all leave the tree unchanged
(delete returning `some` of it). -/
theorem treeOps_noop (id : String) (upd : PartialNode) (nn : ModuleNode) :
    ∀ (root : ModuleNode), id ∉ treeIds root →
      updateNodeInTree id upd root = root ∧
      deleteNodeInTree id root = some root ∧
      addNodeToParent id nn root = root
  | .mk d cs, h => by
    rw [treeIds, List.attach_map_val cs treeIds] at h
    have hne : ¬ (d.id = id) := by
      intro he
      exact h (by rw [he]; exact List.mem_cons_self id _)
    have hsub : ∀ c ∈ cs, id ∉ treeIds c := by
      intro c hc hmem
      exact h (List.mem_cons_of_mem _
        (List.mem_flatten.2 ⟨treeIds c, List.mem_map_of_mem treeIds hc, hmem⟩))
    refine ⟨?_, ?_, ?_⟩
    · rw [updateNodeInTree, if_neg hne,
        List.attach_map_val cs (updateNodeInTree id upd),
        map_eq_self_of_eq (fun c hc => (treeOps_noop id upd nn c (hsub c hc)).1)]
    · rw [deleteNodeInTree, if_neg hne,
        List.attach_map_val cs (deleteNodeInTree id),
        reduceOption_map_eq_self (fun c hc => (treeOps_noop id upd nn c (hsub c hc)).2.1)]
    · rw [addNodeToParent, if_neg hne,
        List.attach_map_val cs (addNodeToParent id nn),
        map_eq_self_of_eq (fun c hc => (treeOps_noop id upd nn c (hsub c hc)).2.2)]
decreasing_by
  all_goals
    have := List.sizeOf_lt_of_mem hc
    simp only [ModuleNode.mk.sizeOf_spec]
    omega

/-- C8: the tree helpers are structure-preserving no-ops on ids that do
not occur in the tree — updating or adding under an unknown id returns the
tree unchanged, and deleting an unknown id returns `some` of the unchanged
tree: no error is raised and nothing is modified. -/
theorem C8_unknown_id_noop (root : ModuleNode) (id : String) (upd : PartialNode)
    (newNode : ModuleNode) (h : id ∉ treeIds root) :
    updateNodeInTree id upd root = root ∧
    deleteNodeInTree id root = some root ∧
    addNodeToParent id newNode root = root :=
  treeOps_noop id upd newNode root h

/-- C8 witness: the theorem applied to `zNode` and the absent id `"zz"`. -/
theorem C8_witness : "zz" ∉ treeIds zNode ∧
    (updateNodeInTree "zz" {} zNode = zNode ∧
     deleteNodeInTree "zz" zNode = some zNode ∧
     addNodeToParent "zz" zNode zNode = zNode) := by
  have habs : "zz" ∉ treeIds zNode := by
    rw [zNode, treeIds]
    simp [zData]
  exact ⟨habs, C8_unknown_id_noop zNode "zz" {} zNode habs⟩

/-- C1 counterexample: the ratio-linked one-child node `NL` still has an
overlap after compaction — the Compactor's updated aspect ratio reshapes
the local block into the re-parked child. -/
theorem C1_counterexample : NL.children ≠ [] ∧
    checkOverlapsInModule cfg1 (organizeChildrenMosaic cfg1 NL) ≠ [] :=
  ⟨by simp [NL], NL_overlaps_nonempty⟩

/-- C1 witness: the amended theorem applied to a concrete unlinked parent
with one child. -/
theorem C1_witness : (leaf832Data "p" 0 0).isRatioLinked = false ∧
    ∀ m ∈ checkOverlapsInModule cfg1
      (organizeChildrenMosaic cfg1 (.mk (leaf832Data "p" 0 0) [aNode])), m.h ≤ 1 :=
  ⟨rfl, C1_compactor_residual_markers cfg1 (leaf832Data "p" 0 0) aNode [] rfl⟩

/-- Membership in the double-loop marker list: a marker arises exactly
from an ordered sublist pair of the block list. -/
theorem mem_pairMarkers {m : OverlapMarker} : ∀ {l : List Block},
    m ∈ pairMarkers l ↔ ∃ a b, [a, b].Sublist l ∧ mkMarker a b = some m := by
  intro l
  induction l with
  | nil => simp [pairMarkers]
  | cons hd tl ih =>
    rw [pairMarkers, List.mem_append, List.mem_filterMap, ih]
    constructor
    · rintro (⟨b, hb, hmk⟩ | ⟨a, b, hs, hmk⟩)
      · exact ⟨hd, b, List.Sublist.cons₂ hd (List.singleton_sublist.2 hb), hmk⟩
      · exact ⟨a, b, List.Sublist.cons hd hs, hmk⟩
    · rintro ⟨a, b, hs, hmk⟩
      cases hs with
      | cons _ h => exact Or.inr ⟨a, b, h, hmk⟩
      | cons₂ _ h => exact Or.inl ⟨b, List.singleton_sublist.1 h, hmk⟩

/-- `mkMarker` emits a marker exactly when both raw overlap amounts are
strictly positive, and the marker is then the literal intersection
rectangle tagged with the two ids. -/
theorem mkMarker_eq_some_iff (a b : Block) (m : OverlapMarker) :
    mkMarker a b = some m ↔
      0 < min (a.x + a.w) (b.x + b.w) - max a.x b.x ∧
      0 < min (a.y + a.h) (b.y + b.h) - max a.y b.y ∧
      m = { x := max a.x b.x, y := max a.y b.y,
            w := min (a.x + a.w) (b.x + b.w) - max a.x b.x,
            h := min (a.y + a.h) (b.y + b.h) - max a.y b.y,
            ids := (a.id, b.id) } := by
  rw [mkMarker]
  by_cases h : 0 < max 0 (min (a.x + a.w) (b.x + b.w) - max a.x b.x) ∧
      0 < max 0 (min (a.y + a.h) (b.y + b.h) - max a.y b.y)
  · have hx : 0 < min (a.x + a.w) (b.x + b.w) - max a.x b.x := by
      rcases lt_max_iff.1 h.1 with h' | h'
      · exact absurd h' (lt_irrefl 0)
      · exact h'
    have hy : 0 < min (a.y + a.h) (b.y + b.h) - max a.y b.y := by
      rcases lt_max_iff.1 h.2 with h' | h'
      · exact absurd h' (lt_irrefl 0)
      · exact h'
    rw [if_pos h, max_eq_right hx.le, max_eq_right hy.le, Option.some_inj]
    constructor
    · intro he
      exact ⟨hx, hy, he.symm⟩
    · rintro ⟨-, -, rfl⟩
      rfl
  · rw [if_neg h]
    constructor
    · intro he
      exact absurd he (by simp)
    · rintro ⟨hx, hy, -⟩
      exact absurd ⟨lt_max_iff.2 (Or.inr hx), lt_max_iff.2 (Or.inr hy)⟩ h

/-- The two-overlapping-siblings example node of the spec: a
zero-resource parent with children "a" at `(0, 0)` and "b" at `(50, 50)`,
each of physical size `100 × 100` under `cfg1`. -/
def ex7Data : NodeData :=
  { id := "p", name := "p", registers := 0, memoryBits := 0, logicGates := 0,
    x := 0, y := 0, internalX := 0, internalY := 0,
    aspectRatio := 1, internalAspectRatio := 1, isRatioLinked := false }

/-- The example parent node for the overlap detector. -/
def ex7 : ModuleNode := .mk ex7Data [leaf832 "a" 0 0, leaf832 "b" 50 50]

/-- C7: the Overlap Detector emits a marker exactly for the ordered pairs
of its block list (local-logic sentinel block first, then the direct
children) whose x- and y-overlaps are both strictly positive, the marker
being the literal intersection rectangle tagged with the two ids; and the
spec's concrete example — siblings at `(0,0,100,100)` and `(50,50,100,100)`
— produces exactly one marker `(50, 50, 50, 50)` with ids `("a", "b")`. -/
theorem C7_marker_characterization :
    (∀ (config : TechNodeConfig) (n : ModuleNode) (m : OverlapMarker),
      m ∈ checkOverlapsInModule config n ↔
      ∃ a b : Block, [a, b].Sublist (blocksOf config n) ∧
        0 < min (a.x + a.w) (b.x + b.w) - max a.x b.x ∧
        0 < min (a.y + a.h) (b.y + b.h) - max a.y b.y ∧
        m = { x := max a.x b.x, y := max a.y b.y,
              w := min (a.x + a.w) (b.x + b.w) - max a.x b.x,
              h := min (a.y + a.h) (b.y + b.h) - max a.y b.y,
              ids := (a.id, b.id) }) ∧
    checkOverlapsInModule cfg1 ex7 =
      [{ x := 50, y := 50, w := 50, h := 50, ids := ("a", "b") }] := by
  constructor
  · intro config n m
    rw [checkOverlapsInModule, mem_pairMarkers]
    constructor
    · rintro ⟨a, b, hs, hmk⟩
      obtain ⟨h1, h2, h3⟩ := (mkMarker_eq_some_iff a b m).1 hmk
      exact ⟨a, b, hs, h1, h2, h3⟩
    · rintro ⟨a, b, hs, h1, h2, h3⟩
      exact ⟨a, b, hs, (mkMarker_eq_some_iff a b m).2 ⟨h1, h2, h3⟩⟩
  · have hLA : (calculatePhysicalSize cfg1
        (ModuleNode.mk ex7Data [leaf832 "a" 0 0, leaf832 "b" 50 50])).stats.localArea = 0 := by
      rw [calc_stats_localArea]
      exact (zero_leaf_helpers cfg1 ex7Data rfl rfl rfl).1
    have heff : effectiveInternalAR
        (ModuleNode.mk ex7Data [leaf832 "a" 0 0, leaf832 "b" 50 50]) = 1 := by
      simp [effectiveInternalAR, effARData, ex7Data, jsOr]
    have hwa : (calculatePhysicalSize cfg1 (leaf832 "a" 0 0)).w = 100 := (leaf832_size "a" 0 0).1
    have hha : (calculatePhysicalSize cfg1 (leaf832 "a" 0 0)).h = 100 := (leaf832_size "a" 0 0).2
    have hwb : (calculatePhysicalSize cfg1 (leaf832 "b" 50 50)).w = 100 :=
      (leaf832_size "b" 50 50).1
    have hhb : (calculatePhysicalSize cfg1 (leaf832 "b" 50 50)).h = 100 :=
      (leaf832_size "b" 50 50).2
    have hida : (leaf832 "a" 0 0).id = "a" := rfl
    have hnma : (leaf832 "a" 0 0).name = "a" := rfl
    have hidb : (leaf832 "b" 50 50).id = "b" := rfl
    have hnmb : (leaf832 "b" 50 50).name = "b" := rfl
    have hxa : jsOr (leaf832 "a" 0 0).x 0 = 0 := by
      norm_num [jsOr, leaf832, leaf832Data, ModuleNode.x]
    have hya : jsOr (leaf832 "a" 0 0).y 0 = 0 := by
      norm_num [jsOr, leaf832, leaf832Data, ModuleNode.y]
    have hxb : jsOr (leaf832 "b" 50 50).x 0 = 50 := by
      norm_num [jsOr, leaf832, leaf832Data, ModuleNode.x]
    have hyb : jsOr (leaf832 "b" 50 50).y 0 = 50 := by
      norm_num [jsOr, leaf832, leaf832Data, ModuleNode.y]
    have hblocks : blocksOf cfg1 ex7 =
        [⟨"internal", "[Local Logic]", 0, 0, 0, 0⟩,
         ⟨"a", "a", 0, 0, 100, 100⟩,
         ⟨"b", "b", 50, 50, 100, 100⟩] := by
      rw [ex7]
      simp only [blocksOf, hLA, heff, ModuleNode.children_mk, List.map_cons, List.map_nil,
        ModuleNode.internalX_mk, ModuleNode.internalY_mk, hida, hnma, hidb, hnmb,
        hxa, hya, hxb, hyb, hwa, hha, hwb, hhb]
      norm_num [ex7Data, jsOr, Real.sqrt_zero]
    have hm01 : mkMarker ⟨"internal", "[Local Logic]", 0, 0, 0, 0⟩
        ⟨"a", "a", 0, 0, 100, 100⟩ = none := by
      rw [mkMarker]
      norm_num [min_def, max_def]
    have hm02 : mkMarker ⟨"internal", "[Local Logic]", 0, 0, 0, 0⟩
        ⟨"b", "b", 50, 50, 100, 100⟩ = none := by
      rw [mkMarker]
      norm_num [min_def, max_def]
    have hm12 : mkMarker ⟨"a", "a", 0, 0, 100, 100⟩
        ⟨"b", "b", 50, 50, 100, 100⟩ =
        some { x := 50, y := 50, w := 50, h := 50, ids := ("a", "b") } := by
      rw [mkMarker]
      norm_num [min_def, max_def]
    rw [checkOverlapsInModule, hblocks, pairMarkers, pairMarkers, pairMarkers, pairMarkers]
    simp only [hm01, hm02, hm12, List.filterMap_cons, List.filterMap_nil]
    simp

/-- `aspectRatio || 1` is strictly positive whenever `aspectRatio ≥ 0`. -/
theorem ratioOf_pos (d : NodeData) (h : 0 ≤ d.aspectRatio) : 0 < ratioOf d := by
  by_cases h0 : d.aspectRatio = 0
  · rw [ratioOf, jsOr, if_pos h0]
    norm_num
  · rw [ratioOf, jsOr, if_neg h0]
    exact lt_of_le_of_ne h (Ne.symm h0)

/-- The running-max folds of `calculatePhysicalSize` are monotone in their
initial value. -/
theorem foldl_max_mono_init {α : Type} (f : α → ℝ) (l : List α) :
    ∀ (a b : ℝ), a ≤ b →
      l.foldl (fun m c => max m (f c)) a ≤ l.foldl (fun m c => max m (f c)) b := by
  induction l with
  | nil => intro a b h; exact h
  | cons c t ih => intro a b h; exact ih _ _ (max_le_max h (le_refl (f c)))

/-- Core monotonicity: enlarging only the raw local resource area (keeping
offsets, ratios and children fixed) cannot decrease `totalArea`. -/
theorem totalArea_mono_counts (config : TechNodeConfig) (d d' : NodeData)
    (cs : List ModuleNode)
    (hu : 0 < config.utilization) (hratio : 0 ≤ d.aspectRatio)
    (har : d'.aspectRatio = d.aspectRatio) (heff : effARData d' = effARData d)
    (hiX : d'.internalX = d.internalX) (hiY : d'.internalY = d.internalY)
    (hraw0 : 0 ≤ rawLocalAreaOf config d)
    (hraw : rawLocalAreaOf config d ≤ rawLocalAreaOf config d') :
    (calculatePhysicalSize config (.mk d cs)).stats.totalArea ≤
      (calculatePhysicalSize config (.mk d' cs)).stats.totalArea := by
  have hloc0 : 0 ≤ localAreaOf config d := div_nonneg hraw0 hu.le
  have hloc : localAreaOf config d ≤ localAreaOf config d' := by
    rw [localAreaOf, localAreaOf]
    exact (div_le_div_right hu).2 hraw
  have hloc0' : 0 ≤ localAreaOf config d' := le_trans hloc0 hloc
  have hT : totalContentAreaOf config d cs ≤ totalContentAreaOf config d' cs := by
    rw [totalContentAreaOf, totalContentAreaOf]
    linarith
  have hr : 0 < ratioOf d := ratioOf_pos d hratio
  have hrEq : ratioOf d' = ratioOf d := by rw [ratioOf, ratioOf, har]
  have hIH : idealHOf config d cs ≤ idealHOf config d' cs := by
    rw [idealHOf, idealHOf, hrEq]
    exact Real.sqrt_le_sqrt ((div_le_div_right hr).2 hT)
  have hIW : idealWOf config d cs ≤ idealWOf config d' cs := by
    rw [idealWOf, idealWOf, hrEq]
    exact mul_le_mul_of_nonneg_right hIH hr.le
  have hIH0 : 0 ≤ idealHOf config d cs := Real.sqrt_nonneg _
  have hIW0' : 0 ≤ idealWOf config d' cs := by
    rw [idealWOf, hrEq]
    exact mul_nonneg (Real.sqrt_nonneg _) hr.le
  have hlH : localHOf config d ≤ localHOf config d' := by
    rw [localHOf, localHOf, heff]
    rcases le_or_lt (effARData d) 0 with he | he
    · rcases eq_or_lt_of_le he with he0 | he0
      · rw [he0, div_zero, div_zero]
      · rw [Real.sqrt_eq_zero_of_nonpos (div_nonpos_of_nonneg_of_nonpos hloc0 he),
          Real.sqrt_eq_zero_of_nonpos (div_nonpos_of_nonneg_of_nonpos hloc0' he)]
    · exact Real.sqrt_le_sqrt ((div_le_div_right he).2 hloc)
  have hlW : localWOf config d ≤ localWOf config d' := by
    rw [localWOf, localWOf, heff]
    rcases le_or_lt (effARData d) 0 with he | he
    · have h1 : localHOf config d = 0 := by
        rcases eq_or_lt_of_le he with he0 | he0
        · rw [localHOf, he0, div_zero, Real.sqrt_zero]
        · rw [localHOf]
          exact Real.sqrt_eq_zero_of_nonpos (div_nonpos_of_nonneg_of_nonpos hloc0 he)
      have h2 : localHOf config d' = 0 := by
        rcases eq_or_lt_of_le he with he0 | he0
        · rw [localHOf, heff, he0, div_zero, Real.sqrt_zero]
        · rw [localHOf, heff]
          exact Real.sqrt_eq_zero_of_nonpos (div_nonpos_of_nonneg_of_nonpos hloc0' he)
      rw [h1, h2]
    · exact mul_le_mul_of_nonneg_right hlH he.le
  have hMX : maxContentXOf config d cs ≤ maxContentXOf config d' cs := by
    rw [maxContentXOf, maxContentXOf, hiX]
    exact foldl_max_mono_init _ cs _ _ (add_le_add_left hlW _)
  have hMY : maxContentYOf config d cs ≤ maxContentYOf config d' cs := by
    rw [maxContentYOf, maxContentYOf, hiY]
    exact foldl_max_mono_init _ cs _ _ (add_le_add_left hlH _)
  have hWmin : WminOf config d cs ≤ WminOf config d' cs := by
    rw [WminOf, WminOf]
    linarith
  have hHmin : HminOf config d cs ≤ HminOf config d' cs := by
    rw [HminOf, HminOf]
    linarith
  rw [calc_stats_totalArea, calc_stats_totalArea]
  exact mul_le_mul (max_le_max hIW hWmin) (max_le_max hIH hHmin)
    (le_trans hIH0 (le_max_left _ _)) (le_trans hIW0' (le_max_left _ _))

/-- C3 (amended): under the natural validity hypotheses (positive
utilization, nonnegative counts, unit areas and aspect ratio) the computed
width, height and `totalArea` are nonnegative, and raising any one
resource count is monotone NON-strictly: `totalArea` cannot decrease, but
it need not strictly increase — the envelope can absorb the extra area
(see the counterexample), so the original claim's strict increase is
false. -/
theorem C3_nonneg_and_monotonicity (config : TechNodeConfig) (d : NodeData)
    (cs : List ModuleNode)
    (hu : 0 < config.utilization)
    (hreg : 0 ≤ d.registers) (hmem : 0 ≤ d.memoryBits) (hgat : 0 ≤ d.logicGates)
    (hdff : 0 ≤ config.dffArea) (hsram : 0 ≤ config.sramAreaPerBit)
    (hgate : 0 ≤ config.gateArea) (har : 0 ≤ d.aspectRatio) :
    (0 ≤ (calculatePhysicalSize config (.mk d cs)).stats.calculatedWidth ∧
     0 ≤ (calculatePhysicalSize config (.mk d cs)).stats.calculatedHeight ∧
     0 ≤ (calculatePhysicalSize config (.mk d cs)).stats.totalArea) ∧
    (∀ v, d.registers ≤ v →
      (calculatePhysicalSize config (.mk d cs)).stats.totalArea ≤
        (calculatePhysicalSize config (.mk { d with registers := v } cs)).stats.totalArea) ∧
    (∀ v, d.memoryBits ≤ v →
      (calculatePhysicalSize config (.mk d cs)).stats.totalArea ≤
        (calculatePhysicalSize config (.mk { d with memoryBits := v } cs)).stats.totalArea) ∧
    (∀ v, d.logicGates ≤ v →
      (calculatePhysicalSize config (.mk d cs)).stats.totalArea ≤
        (calculatePhysicalSize config (.mk { d with logicGates := v } cs)).stats.totalArea) := by
  have hr : 0 < ratioOf d := ratioOf_pos d har
  have hIW0 : 0 ≤ idealWOf config d cs := by
    rw [idealWOf]
    exact mul_nonneg (Real.sqrt_nonneg _) hr.le
  have hIH0 : 0 ≤ idealHOf config d cs := Real.sqrt_nonneg _
  have hW0 : 0 ≤ max (idealWOf config d cs) (WminOf config d cs) :=
    le_trans hIW0 (le_max_left _ _)
  have hH0 : 0 ≤ max (idealHOf config d cs) (HminOf config d cs) :=
    le_trans hIH0 (le_max_left _ _)
  have hraw0 : 0 ≤ rawLocalAreaOf config d := by
    rw [rawLocalAreaOf, regAreaOf, memAreaOf, logicAreaOf, jsOr_self_zero, jsOr_self_zero,
      jsOr_self_zero]
    have := mul_nonneg hreg hdff
    have := mul_nonneg hmem hsram
    have := mul_nonneg hgat hgate
    linarith
  refine ⟨⟨?_, ?_, ?_⟩, ?_, ?_, ?_⟩
  · rw [calc_stats_calculatedWidth]
    exact hW0
  · rw [calc_stats_calculatedHeight]
    exact hH0
  · rw [calc_stats_totalArea]
    exact mul_nonneg hW0 hH0
  · intro v hv
    refine totalArea_mono_counts config d _ cs hu har rfl rfl rfl rfl hraw0 ?_
    simp only [rawLocalAreaOf, regAreaOf, memAreaOf, logicAreaOf, jsOr_self_zero]
    have := mul_le_mul_of_nonneg_right hv hdff
    linarith
  · intro v hv
    refine totalArea_mono_counts config d _ cs hu har rfl rfl rfl rfl hraw0 ?_
    simp only [rawLocalAreaOf, regAreaOf, memAreaOf, logicAreaOf, jsOr_self_zero]
    have := mul_le_mul_of_nonneg_right hv hsram
    linarith
  · intro v hv
    refine totalArea_mono_counts config d _ cs hu har rfl rfl rfl rfl hraw0 ?_
    simp only [rawLocalAreaOf, regAreaOf, memAreaOf, logicAreaOf, jsOr_self_zero]
    have := mul_le_mul_of_nonneg_right hv hgate
    linarith

/-- An all-zero leaf (48 × 84 footprint) parked at `(100, 100)`. -/
def zFarData : NodeData :=
  { id := "f", name := "f", registers := 0, memoryBits := 0, logicGates := 0,
    x := 100, y := 100, internalX := 0, internalY := 0,
    aspectRatio := 1, internalAspectRatio := 1, isRatioLinked := false }

/-- The far-parked zero leaf as a node. -/
def zFar : ModuleNode := .mk zFarData []

/-- A parent with local area at most 1 and the far-parked zero child is
envelope-bound: its `totalArea` is the fixed `196 × 268` regardless of the
exact local area. -/
theorem pC3_total (dd : NodeData) (hX : dd.internalX = 0) (hY : dd.internalY = 0)
    (hr : ratioOf dd = 1) (heff : effARData dd = 1)
    (h0 : 0 ≤ localAreaOf cfg1 dd) (h1 : localAreaOf cfg1 dd ≤ 1) :
    (calculatePhysicalSize cfg1 (.mk dd [zFar])).stats.totalArea = 196 * 268 := by
  have hzw : (calculatePhysicalSize cfg1 zFar).w = 48 :=
    (zero_leaf_calc cfg1 zFarData rfl rfl rfl rfl rfl).1
  have hzh : (calculatePhysicalSize cfg1 zFar).h = 84 :=
    (zero_leaf_calc cfg1 zFarData rfl rfl rfl rfl rfl).2
  have hcs : childrenAreaSumOf cfg1 [zFar] = 4032 := by
    rw [childrenAreaSumOf_singleton, hzw, hzh]
    norm_num
  have hT : totalContentAreaOf cfg1 dd [zFar] = localAreaOf cfg1 dd + 4032 := by
    rw [totalContentAreaOf, hcs]
  have hlH : localHOf cfg1 dd ≤ 1 := by
    rw [localHOf, heff, div_one]
    exact Real.sqrt_le_iff.2 ⟨by norm_num, by nlinarith⟩
  have hlH0 : 0 ≤ localHOf cfg1 dd := by
    rw [localHOf]
    exact Real.sqrt_nonneg _
  have hlW : localWOf cfg1 dd ≤ 1 := by
    rw [localWOf, heff, mul_one]
    exact hlH
  have hlW0 : 0 ≤ localWOf cfg1 dd := by
    rw [localWOf, heff, mul_one]
    exact hlH0
  have hxf : jsOr zFar.x 0 = 100 := by
    norm_num [jsOr, zFar, zFarData, ModuleNode.x]
  have hyf : jsOr zFar.y 0 = 100 := by
    norm_num [jsOr, zFar, zFarData, ModuleNode.y]
  have hMX : maxContentXOf cfg1 dd [zFar] = 148 := by
    rw [maxContentXOf_singleton, hX, jsOr_zero_left, zero_add, hxf, hzw,
      show (100:ℝ) + 48 = 148 by norm_num]
    exact max_eq_right (by linarith)
  have hMY : maxContentYOf cfg1 dd [zFar] = 184 := by
    rw [maxContentYOf_singleton, hY, jsOr_zero_left, zero_add, hyf, hzh,
      show (100:ℝ) + 84 = 184 by norm_num]
    exact max_eq_right (by linarith)
  have hWm : WminOf cfg1 dd [zFar] = 196 := by
    rw [WminOf, hMX]
    norm_num [GLOBAL_MARGIN]
  have hHm : HminOf cfg1 dd [zFar] = 268 := by
    rw [HminOf, hMY]
    norm_num [GLOBAL_MARGIN, GLOBAL_HEADER]
  have hsq : Real.sqrt (localAreaOf cfg1 dd + 4032) ≤ 196 :=
    Real.sqrt_le_iff.2 ⟨by norm_num, by nlinarith⟩
  have hIH : idealHOf cfg1 dd [zFar] = Real.sqrt (localAreaOf cfg1 dd + 4032) := by
    rw [idealHOf, hr, div_one, hT]
  have hIW : idealWOf cfg1 dd [zFar] = Real.sqrt (localAreaOf cfg1 dd + 4032) := by
    rw [idealWOf, hIH, hr, mul_one]
  have hsq268 : Real.sqrt (localAreaOf cfg1 dd + 4032) ≤ 268 := by linarith
  rw [calc_stats_totalArea, hWm, hHm, hIH, hIW, max_eq_right hsq, max_eq_right hsq268]

/-- A zero-resource parent for the strictness counterexample. -/
def pC3Data : NodeData :=
  { id := "p3", name := "p3", registers := 0, memoryBits := 0, logicGates := 0,
    x := 0, y := 0, internalX := 0, internalY := 0,
    aspectRatio := 1, internalAspectRatio := 1, isRatioLinked := false }

/-- C3 counterexample: raising `registers` from 0 to 1 on the parent of
the far-parked child leaves `totalArea` exactly unchanged (the placement
envelope `196 × 268` dominates both before and after), refuting the
claimed strict increase. -/
theorem C3_counterexample :
    pC3Data.registers < (1:ℝ) ∧
    (calculatePhysicalSize cfg1
        (.mk { pC3Data with registers := 1 } [zFar])).stats.totalArea =
      (calculatePhysicalSize cfg1 (.mk pC3Data [zFar])).stats.totalArea := by
  constructor
  · norm_num [pC3Data]
  · rw [pC3_total pC3Data rfl rfl
      (by norm_num [ratioOf, jsOr, pC3Data])
      (by norm_num [effARData, jsOr, pC3Data])
      (by norm_num [localAreaOf, rawLocalAreaOf, regAreaOf, memAreaOf, logicAreaOf, jsOr,
        pC3Data, cfg1])
      (by norm_num [localAreaOf, rawLocalAreaOf, regAreaOf, memAreaOf, logicAreaOf, jsOr,
        pC3Data, cfg1]),
      pC3_total { pC3Data with registers := 1 } rfl rfl
      (by norm_num [ratioOf, jsOr, pC3Data])
      (by norm_num [effARData, jsOr, pC3Data])
      (by norm_num [localAreaOf, rawLocalAreaOf, regAreaOf, memAreaOf, logicAreaOf, jsOr,
        pC3Data, cfg1])
      (by norm_num [localAreaOf, rawLocalAreaOf, regAreaOf, memAreaOf, logicAreaOf, jsOr,
        pC3Data, cfg1])]

/-- C3 witness: the amended theorem applied to the all-zero leaf under the
unit config. -/
theorem C3_witness :
    (0 < cfg1.utilization ∧ (0:ℝ) ≤ zData.registers ∧ 0 ≤ zData.aspectRatio) ∧
    ((0 ≤ (calculatePhysicalSize cfg1 (.mk zData [])).stats.calculatedWidth ∧
      0 ≤ (calculatePhysicalSize cfg1 (.mk zData [])).stats.calculatedHeight ∧
      0 ≤ (calculatePhysicalSize cfg1 (.mk zData [])).stats.totalArea) ∧
     (∀ v, zData.registers ≤ v →
       (calculatePhysicalSize cfg1 (.mk zData [])).stats.totalArea ≤
         (calculatePhysicalSize cfg1 (.mk { zData with registers := v } [])).stats.totalArea) ∧
     (∀ v, zData.memoryBits ≤ v →
       (calculatePhysicalSize cfg1 (.mk zData [])).stats.totalArea ≤
         (calculatePhysicalSize cfg1 (.mk { zData with memoryBits := v } [])).stats.totalArea) ∧
     (∀ v, zData.logicGates ≤ v →
       (calculatePhysicalSize cfg1 (.mk zData [])).stats.totalArea ≤
         (calculatePhysicalSize cfg1 (.mk { zData with logicGates := v } [])).stats.totalArea)) :=
  ⟨⟨by norm_num [cfg1], by norm_num [zData], by norm_num [zData]⟩,
   C3_nonneg_and_monotonicity cfg1 zData []
     (by norm_num [cfg1]) (by norm_num [zData]) (by norm_num [zData]) (by norm_num [zData])
     (by norm_num [cfg1]) (by norm_num [cfg1]) (by norm_num [cfg1]) (by norm_num [zData])⟩

/-- C4 (amended): envelope dominance holds unconditionally
(`calculatedWidth ≥ idealWidth`, `calculatedHeight ≥ idealHeight`), and —
under positivity of the content area, the ratio and the placement bounds —
both equalities hold iff the aspect ratio satisfies the two RAW feasible
bounds `W_min²/T ≤ ratio` and `ratio ≤ T/H_min²`.  The returned interval
is the SORTED pair `(min, max)` of those two raw bounds, which is not the
same condition: when the raw interval is empty, a ratio can lie inside the
sorted interval while an equality fails (see the counterexample), so the
original claim's iff against `[minFeasibleRatio, maxFeasibleRatio]` is
false. -/
theorem C4_envelope_dominance (config : TechNodeConfig) (d : NodeData) (cs : List ModuleNode) :
    ((calculatePhysicalSize config (.mk d cs)).stats.idealWidth ≤
       (calculatePhysicalSize config (.mk d cs)).stats.calculatedWidth ∧
     (calculatePhysicalSize config (.mk d cs)).stats.idealHeight ≤
       (calculatePhysicalSize config (.mk d cs)).stats.calculatedHeight) ∧
    (0 < totalContentAreaOf config d cs → 0 < ratioOf d →
     0 ≤ WminOf config d cs → 0 < HminOf config d cs →
     (((calculatePhysicalSize config (.mk d cs)).stats.calculatedWidth =
         (calculatePhysicalSize config (.mk d cs)).stats.idealWidth ∧
       (calculatePhysicalSize config (.mk d cs)).stats.calculatedHeight =
         (calculatePhysicalSize config (.mk d cs)).stats.idealHeight) ↔
      (minRawRatioOf config d cs ≤ ratioOf d ∧
       ratioOf d ≤ maxRawRatioOf config d cs))) := by
  constructor
  · constructor
    · rw [calc_stats_idealWidth, calc_stats_calculatedWidth]
      exact le_max_left _ _
    · rw [calc_stats_idealHeight, calc_stats_calculatedHeight]
      exact le_max_left _ _
  · intro hT hr hWm hHm
    rw [calc_stats_calculatedWidth, calc_stats_calculatedHeight, calc_stats_idealWidth,
      calc_stats_idealHeight, max_eq_left_iff, max_eq_left_iff]
    have hIWsq : idealWOf config d cs =
        Real.sqrt (totalContentAreaOf config d cs * ratioOf d) := by
      rw [idealWOf, idealHOf]
      have h := Real.sqrt_mul
        (div_nonneg hT.le hr.le :
          0 ≤ totalContentAreaOf config d cs / ratioOf d) ((ratioOf d) ^ 2)
      rw [Real.sqrt_sq hr.le] at h
      rw [← h]
      congr 1
      field_simp
      ring
    have hWiff : WminOf config d cs ≤ idealWOf config d cs ↔
        minRawRatioOf config d cs ≤ ratioOf d := by
      rw [hIWsq, minRawRatioOf, div_le_iff₀ hT,
        Real.le_sqrt hWm (mul_nonneg hT.le hr.le), sq,
        mul_comm (totalContentAreaOf config d cs) (ratioOf d)]
    have hHiff : HminOf config d cs ≤ idealHOf config d cs ↔
        ratioOf d ≤ maxRawRatioOf config d cs := by
      rw [idealHOf, Real.le_sqrt hHm.le (div_nonneg hT.le hr.le),
        le_div_iff₀ hr, maxRawRatioOf, le_div_iff₀ (mul_pos hHm hHm), sq,
        mul_comm (HminOf config d cs * HminOf config d cs) (ratioOf d)]
    rw [hWiff, hHiff]

/-- C4 counterexample: the one-register leaf has raw feasible bounds
`W_min²/T = 2401` and `T/H_min² = 1/7225`, so the sorted reported interval
is `[1/7225, 2401]` and the node's `aspectRatio = 1` lies inside it — yet
`calculatedWidth = 49 ≠ 1 = idealWidth`: the claimed iff against the
sorted interval fails. -/
theorem C4_counterexample :
    (calculatePhysicalSize cfg1 (.mk oneRegData [])).stats.minFeasibleRatio ≤
      oneRegData.aspectRatio ∧
    oneRegData.aspectRatio ≤
      (calculatePhysicalSize cfg1 (.mk oneRegData [])).stats.maxFeasibleRatio ∧
    (calculatePhysicalSize cfg1 (.mk oneRegData [])).stats.calculatedWidth ≠
      (calculatePhysicalSize cfg1 (.mk oneRegData [])).stats.idealWidth := by
  have hloc : localAreaOf cfg1 oneRegData = 1 := by
    norm_num [localAreaOf, rawLocalAreaOf, regAreaOf, memAreaOf, logicAreaOf, jsOr,
      oneRegData, cfg1]
  have heff : effARData oneRegData = 1 := by
    norm_num [effARData, jsOr, oneRegData]
  have hratio : ratioOf oneRegData = 1 := by
    norm_num [ratioOf, jsOr, oneRegData]
  have hT : totalContentAreaOf cfg1 oneRegData [] = 1 := by
    rw [totalContentAreaOf_nil, hloc]
  have hlH : localHOf cfg1 oneRegData = 1 := by
    rw [localHOf, hloc, heff, div_one, Real.sqrt_one]
  have hlW : localWOf cfg1 oneRegData = 1 := by
    rw [localWOf, hlH, heff, one_mul]
  have hIH : idealHOf cfg1 oneRegData [] = 1 := by
    rw [idealHOf, hT, hratio, div_one, Real.sqrt_one]
  have hIW : idealWOf cfg1 oneRegData [] = 1 := by
    rw [idealWOf, hIH, hratio, one_mul]
  have hWm : WminOf cfg1 oneRegData [] = 49 := by
    rw [WminOf, maxContentXOf_nil, hlW]
    norm_num [jsOr, oneRegData, GLOBAL_MARGIN]
  have hHm : HminOf cfg1 oneRegData [] = 85 := by
    rw [HminOf, maxContentYOf_nil, hlH]
    norm_num [jsOr, oneRegData, GLOBAL_MARGIN, GLOBAL_HEADER]
  have hminR : minRawRatioOf cfg1 oneRegData [] = 2401 := by
    rw [minRawRatioOf, hWm, hT]
    norm_num
  have hmaxR : maxRawRatioOf cfg1 oneRegData [] = 1/7225 := by
    rw [maxRawRatioOf, hHm, hT]
    norm_num
  refine ⟨?_, ?_, ?_⟩
  · rw [calc_stats_minFeasibleRatio, hminR, hmaxR]
    norm_num [oneRegData, min_def]
  · rw [calc_stats_maxFeasibleRatio, hminR, hmaxR]
    norm_num [oneRegData, max_def]
  · rw [calc_stats_calculatedWidth, calc_stats_idealWidth, hIW, hWm]
    norm_num [max_def]
